import Mathlib

/-!
Verification development for the `my-agent` orchestration runtime.

This file gives a shallow embedding, in Lean 4, of the core of the
repository: the token-estimation heuristic (`src/prompt/system-prompt.ts`),
the tail-pruning and context assembly of `ContextBuilder`
(`src/context-builder.ts`), the LLM-based history compaction
(`src/memory/compaction.ts`), the tool dispatch layer
(`src/tools/registry.ts`), the long-term-memory tool
(`src/memory/long-term.ts`) and the ReAct loop of `Agent`
(`src/agent.ts`).

Conventions of the embedding:
* TypeScript numbers are modelled with `Nat`/`Int` in exact arithmetic
  (overflow and floating point rounding of JS numbers are out of scope;
  the only float expressions in the sources, `Math.ceil(cjk/2 + other/4)`
  and `maxTokens * 0.8`, agree with exact rational arithmetic for all
  realistic magnitudes).
* `string | null` becomes `Option String`; absent optional fields become
  `none` (for `tool_calls`, the absent field and `[]` are identified).
* Promises and `async` disappear: an async function that can throw is
  modelled as a pure function into `Except String α` where `.error msg`
  models a thrown error carrying `msg` as its message.
* External collaborators (the LLM transport, `JSON.parse`, the clock and
  the memory file) are inputs of the model: the LLM is a function
  `List Message → List ToolDefinition → Except String LLMResponse`,
  `JSON.parse` is a function `String → Except String Json`, the timestamp
  and the memory-file content are plain values.
* Mutation of `this.conversationHistory` and of the shared registry is
  explicit state passing; `Agent.run` additionally returns the trace of
  LLM invocations it performed, so that statements about "the LLM is
  invoked with ..." can be expressed.
-/

set_option maxRecDepth 4096

/-! ## Data model (`src/types.ts`) -/

/-- Message roles, from `types.ts` (`Role`). -/
inductive Role where
  | system
  | user
  | assistant
  | tool
deriving DecidableEq, Repr

/-- A tool call produced by the LLM (`types.ts` `ToolCall`);
`arguments` is the JSON-encoded argument text. -/
structure ToolCall where
  id : String
  name : String
  arguments : String
deriving DecidableEq, Repr

/-- A conversation message (`types.ts` `Message`). `content` is
`string | null`; the optional `tool_calls` field is identified with `[]`
when absent. -/
structure Message where
  role : Role
  content : Option String := none
  tool_calls : List ToolCall := []
  tool_call_id : Option String := none
  name : Option String := none
  reasoning_content : Option String := none
deriving DecidableEq, Repr

/-- JSON values, used to model the result of the external `JSON.parse`
and the serialization of tool parameter schemas. JS float numerals are
out of scope; `num` carries an integer. -/
inductive Json where
  | null
  | bool (b : Bool)
  | num (n : Int)
  | str (s : String)
  | arr (elems : List Json)
  | obj (fields : List (String × Json))
deriving Repr

/-- Parameter schema of a tool (`types.ts` `ToolParameter`), a
JSON-schema-like recursive shape. -/
inductive ToolParameter where
  | mk (type : String) (description : Option String)
       (enumVals : Option (List String)) (items : Option ToolParameter)
       (properties : Option (List (String × ToolParameter)))
       (required : Option (List String))
deriving Repr

/-- Field accessor for `ToolParameter.type`. -/
def ToolParameter.type : ToolParameter → String
  | .mk t _ _ _ _ _ => t

/-- Top-level schema of a tool (`types.ts` `ToolSchema`): always
`type: "object"` with named properties. -/
structure ToolSchema where
  properties : List (String × ToolParameter)
  required : Option (List String) := none
deriving Repr

/-- Declarative description of a tool (`types.ts` `ToolDefinition`). -/
structure ToolDefinition where
  name : String
  description : String
  parameters : ToolSchema
deriving Repr

/-- A registered tool (`types.ts` `Tool`): definition plus handler. The
handler is async and may throw; it is modelled as a pure function into
`Except String String`. -/
structure Tool where
  definition : ToolDefinition
  handler : Json → Except String String

/-- Skill metadata (`types.ts` `SkillMeta`). -/
structure SkillMeta where
  name : String
  description : String
  version : Option String := none
  tags : Option (List String) := none
  path : String
deriving Repr

/-- An extra system-prompt section (`system-prompt.ts` `PromptSection`). -/
structure PromptSection where
  heading : String
  content : String
deriving Repr

/-- Per-agent configuration (`types.ts` `AgentConfig`). -/
structure AgentConfig where
  name : String
  baseInstructions : String
  model : String
  maxTokens : Option Nat := none
  toolAllowlist : Option (List String) := none
  maxIterations : Option Nat := none
  workspaceRoot : Option String := none

/-- Finish reason of an LLM response (`types.ts` `LLMResponse`). -/
inductive FinishReason where
  | stop
  | tool_calls
  | length
  | content_filter
deriving DecidableEq, Repr

/-- A response of the LLM provider (`types.ts` `LLMResponse`). -/
structure LLMResponse where
  content : Option String
  toolCalls : List ToolCall
  finishReason : FinishReason
  reasoningContent : Option String := none

/-- The LLM provider contract (`types.ts` `LLMProvider.chat`): an async
call that may throw, modelled as a pure function. -/
abbrev LLM : Type :=
  List Message → List ToolDefinition → Except String LLMResponse

/-! ## String helpers

JavaScript's `String.prototype.includes`, `trim`, template literals and
the JSON string escaping of `JSON.stringify` are modelled on `List Char`
(one entry per Unicode code point, as produced by `for (const ch of s)`).
-/

/-- Truthiness of a JS `string | null | undefined` value: `null`,
`undefined` and `""` are falsy. -/
def strTruthy : Option String → Bool
  | some s => !(s = "")
  | none => false

/-- Whether `pat` occurs as a contiguous run inside `l`
(JS `String.prototype.includes`). -/
def containsSeq (pat : List Char) : List Char → Bool
  | [] => pat.isEmpty
  | c :: rest => pat.isPrefixOf (c :: rest) || containsSeq pat rest

/-- JS `haystack.includes(pat)` on an optional string, with
`m.content?.includes(pat)` semantics: `none` gives `false`. -/
def contentIncludes (content : Option String) (pat : String) : Bool :=
  match content with
  | some s => containsSeq pat.data s.data
  | none => false

/-- Characters treated as whitespace by JS `String.prototype.trim`. -/
def isJsWhitespace (c : Char) : Bool :=
  c.toNat = 0x20 || c.toNat = 0x09 || c.toNat = 0x0A || c.toNat = 0x0D ||
  c.toNat = 0x0B || c.toNat = 0x0C || c.toNat = 0xA0 || c.toNat = 0x1680 ||
  (0x2000 ≤ c.toNat && c.toNat ≤ 0x200A) || c.toNat = 0x2028 ||
  c.toNat = 0x2029 || c.toNat = 0x202F || c.toNat = 0x205F ||
  c.toNat = 0x3000 || c.toNat = 0xFEFF

/-- JS `String.prototype.trim`: strip leading and trailing whitespace. -/
def jsTrim (s : String) : String :=
  ⟨((s.data.dropWhile isJsWhitespace).reverse.dropWhile isJsWhitespace).reverse⟩

/-- Escape one character as inside a JSON string literal
(`JSON.stringify` semantics for the characters the sources produce). -/
def jsonEscChar (c : Char) : List Char :=
  if c = '"' then ['\\', '"']
  else if c = '\\' then ['\\', '\\']
  else if c = '\n' then ['\\', 'n']
  else if c = '\r' then ['\\', 'r']
  else if c = '\t' then ['\\', 't']
  else if c = '\x08' then ['\\', 'b']
  else if c = '\x0c' then ['\\', 'f']
  else if c.toNat < 0x20 then
    ['\\', 'u', '0', '0',
     (Nat.digitChar (c.toNat / 16)), (Nat.digitChar (c.toNat % 16))]
  else [c]

/-- Body of a JSON string literal for `s` (without the quotes). -/
def jsonEscape (s : String) : String :=
  ⟨(s.data.map jsonEscChar).flatten⟩

/-- Render a JSON string literal (quotes included). -/
def jsonStr (s : String) : String :=
  "\"" ++ jsonEscape s ++ "\""

/-- The text `JSON.stringify(\x7b error: msg \x7d)` produced by
`ToolRegistry.execute` for every failure. -/
def jsonErrorPayload (msg : String) : String :=
  "\x7b\"error\":" ++ jsonStr msg ++ "\x7d"

/-! ## Token estimation (`system-prompt.ts` `estimateTokens`) -/

/-- Character classified as CJK by `estimateTokens`
(`ch.charCodeAt(0) > 0x2e80`; for astral code points the high surrogate
read by `charCodeAt(0)` and the code point itself are both above the
threshold, so classifying by code point is equivalent). -/
def isCjkChar (c : Char) : Bool :=
  decide (c.toNat > 0x2E80)

/-- Number of CJK-classified characters of `s`. -/
def cjkCount (s : String) : Nat :=
  s.data.countP isCjkChar

/-- Number of the remaining characters of `s`. -/
def otherCount (s : String) : Nat :=
  s.data.countP (fun c => !isCjkChar c)

/-- Token estimate `Math.ceil(cjk / 2 + other / 4)` of `estimateTokens`,
in exact arithmetic: `⌈(2*cjk + other) / 4⌉` as a natural division. -/
def estimateTokens (s : String) : Nat :=
  (2 * cjkCount s + otherCount s + 3) / 4

/-- Token estimate of a message's content (`m.content ?? ""`). -/
def msgTokens (m : Message) : Nat :=
  estimateTokens (m.content.getD (""))

/-- Sum of the token estimates of a list of messages (the reduction in
`MemoryCompactor.shouldCompact` and in `ContextBuilder.build`). -/
def totalMsgTokens (messages : List Message) : Nat :=
  messages.foldl (fun sum m => sum + msgTokens m) 0

/-! ## Tail-pruning (`context-builder.ts` `ContextBuilder.pruneMessages`) -/

/-- The backward walk of `pruneMessages`: starting at index `i` with
accumulated total `used`, return the final value of `cutoff`. `toks` are
the per-message token estimates and `n` the number of messages. Mirrors:
`for (let i = n-1; i >= 0; i--) { const tokens = toks[i];
if (used + tokens > budget && i < n - 1) { cutoff = i + 1; break; }
used += tokens; cutoff = i; }`. -/
def pruneLoopGo (toks : List Nat) (budgetTokens : Int) (n : Nat) :
    Nat → Nat → Nat
  | i, used =>
    let tokens := toks.getD i 0
    if ((used + tokens : Int) > budgetTokens) ∧ i < n - 1 then i + 1
    else
      match i with
      | 0 => 0
      | i' + 1 => pruneLoopGo toks budgetTokens n i' (used + tokens)

/-- The `cutoff` computed by `pruneMessages` (0 when no prefix is
dropped; the loop body always runs since the empty case returns early). -/
def pruneCutoff (messages : List Message) (budgetTokens : Int) : Nat :=
  if messages.length = 0 then 0
  else
    pruneLoopGo (messages.map msgTokens) budgetTokens messages.length
      (messages.length - 1) 0

/-- The synthetic `system` notice prepended when `cutoff > 0`. -/
def pruneNotice (cutoff : Nat) : Message :=
  { role := Role.system,
    content := some ("[Context note: " ++ toString cutoff ++
      " earlier message(s) were pruned to fit the context window.]") }

/-- `ContextBuilder.pruneMessages`: keep the most recent messages that
fit the token budget, walking backwards; prepend a notice when a prefix
was dropped. -/
def pruneMessages (messages : List Message) (budgetTokens : Int) :
    List Message :=
  if messages.length = 0 then []
  else
    let cutoff := pruneCutoff messages budgetTokens
    let pruned := messages.drop cutoff
    if cutoff > 0 then pruneNotice cutoff :: pruned else pruned

/-! ## JSON rendering (`JSON.stringify(v, null, 2)` for tool schemas) -/

/-- A run of `n` spaces. -/
def spaces (n : Nat) : String :=
  ⟨List.replicate n ' '⟩

mutual

/-- Pretty JSON rendering with two-space indentation, as produced by
`JSON.stringify(value, null, 2)`; `ind` is the indentation of the
enclosing closing bracket. -/
def Json.render (ind : Nat) : Json → String
  | .null => "null"
  | .bool b => if b then "true" else "false"
  | .num n => toString n
  | .str s => jsonStr s
  | .arr [] => "[]"
  | .arr (e :: es) =>
    "[\n" ++ Json.renderElems (ind + 2) (e :: es) ++ "\n" ++ spaces ind ++ "]"
  | .obj [] => "\x7b\x7d"
  | .obj (f :: fs) =>
    "\x7b\n" ++ Json.renderFields (ind + 2) (f :: fs) ++ "\n" ++ spaces ind
      ++ "\x7d"

/-- Render array elements, one per line, comma separated. -/
def Json.renderElems (ind : Nat) : List Json → String
  | [] => ""
  | [e] => spaces ind ++ Json.render ind e
  | e :: e' :: es =>
    spaces ind ++ Json.render ind e ++ ",\n" ++
      Json.renderElems ind (e' :: es)

/-- Render object fields, one per line, comma separated. -/
def Json.renderFields (ind : Nat) : List (String × Json) → String
  | [] => ""
  | [(k, v)] => spaces ind ++ jsonStr k ++ ": " ++ Json.render ind v
  | (k, v) :: f :: fs =>
    spaces ind ++ jsonStr k ++ ": " ++ Json.render ind v ++ ",\n" ++
      Json.renderFields ind (f :: fs)

end

mutual

/-- JSON value of a `ToolParameter`, with absent optional fields omitted
(the key order follows the construction sites in the sources). -/
def ToolParameter.toJson : ToolParameter → Json
  | .mk t d e i p r =>
    Json.obj
      ([(("type" : String), Json.str t)]
        ++ (match d with
            | some s => [(("description" : String), Json.str s)]
            | none => [])
        ++ (match e with
            | some l => [(("enum" : String), Json.arr (l.map Json.str))]
            | none => [])
        ++ (match i with
            | some ip => [(("items" : String), ToolParameter.toJson ip)]
            | none => [])
        ++ (match p with
            | some ps =>
              [(("properties" : String),
                Json.obj (ToolParameter.propsToJson ps))]
            | none => [])
        ++ (match r with
            | some l => [(("required" : String), Json.arr (l.map Json.str))]
            | none => []))

/-- JSON fields for a named `properties` record of `ToolParameter`s. -/
def ToolParameter.propsToJson :
    List (String × ToolParameter) → List (String × Json)
  | [] => []
  | (k, v) :: rest => (k, ToolParameter.toJson v) :: ToolParameter.propsToJson rest

end

/-- JSON value of a `ToolSchema` (`type` is always `"object"`). -/
def ToolSchema.toJson (s : ToolSchema) : Json :=
  Json.obj
    ([(("type" : String), Json.str ("object")),
      (("properties" : String),
        Json.obj (s.properties.map (fun kv => (kv.1, kv.2.toJson))))]
      ++ (match s.required with
          | some l => [(("required" : String), Json.arr (l.map Json.str))]
          | none => []))

/-! ## System prompt assembly (`src/prompt/system-prompt.ts`) -/

/-- Input of `buildSystemPrompt` (`SystemPromptParts`). -/
structure SystemPromptParts where
  config : AgentConfig
  tools : List ToolDefinition
  skills : Option (List SkillMeta) := none
  extraSections : Option (List PromptSection) := none

/-- Runtime-information block (`buildRuntimeSection`); `now` is the
`new Date().toISOString()` side input. The workspace line is emitted for
a truthy `workspaceRoot` only. -/
def buildRuntimeSection (config : AgentConfig) (now : String) : String :=
  String.intercalate ("\n")
    (["## Runtime Information", "",
      "- Agent: " ++ config.name,
      "- Model: " ++ config.model,
      "- Time: " ++ now]
      ++ (match config.workspaceRoot with
          | some w => if w = "" then [] else ["- Workspace: " ++ w]
          | none => []))

/-- Tools block (`buildToolsSection`). -/
def buildToolsSection (tools : List ToolDefinition) : String :=
  String.intercalate ("\n")
    (["## Available Tools", "",
      "You have access to the following tools. " ++
        "Call them by emitting a tool_call in your response.",
      ""]
      ++ (tools.map (fun t =>
            ["### " ++ t.name, t.description,
             "Parameters: " ++ Json.render 0 t.parameters.toJson,
             ""])).flatten)

/-- Skills block (`buildSkillsSection`). -/
def buildSkillsSection (skills : List SkillMeta) : String :=
  String.intercalate ("\n")
    (["## Available Skills", "",
      "The following skills are installed. " ++
        "When a user request matches a skill, use the read_file tool to load " ++
        "the full SKILL.md for detailed instructions before proceeding.",
      ""]
      ++ (skills.map (fun s =>
            ["- **" ++ s.name ++ "**: " ++ s.description]
              ++ (match s.tags with
                  | some tags =>
                    if tags.length > 0 then
                      ["  Tags: " ++ String.intercalate (", ") tags]
                    else []
                  | none => [])
              ++ ["  Path: " ++ s.path])).flatten)

/-- Assemble the system prompt from its parts (`buildSystemPrompt`):
base instructions, runtime block, optional tools and skills blocks and
extra sections, joined by a divider. -/
def buildSystemPrompt (parts : SystemPromptParts) (now : String) : String :=
  String.intercalate ("\n\n---\n\n")
    ([parts.config.baseInstructions, buildRuntimeSection parts.config now]
      ++ (if parts.tools.length > 0 then [buildToolsSection parts.tools]
          else [])
      ++ (match parts.skills with
          | some sk => if sk.length > 0 then [buildSkillsSection sk] else []
          | none => [])
      ++ (match parts.extraSections with
          | some secs =>
            secs.map (fun sec => "## " ++ sec.heading ++ "\n\n" ++ sec.content)
          | none => []))

/-! ## Tool registry (`src/tools/registry.ts`) -/

/-- The registry's `Map<string, Tool>`, as a list in insertion order
(`register` only inserts fresh keys, so a list is a faithful model). -/
abbrev ToolRegistry : Type :=
  List Tool

/-- Lookup by name (`Map.get`). -/
def ToolRegistry.get (reg : ToolRegistry) (name : String) : Option Tool :=
  reg.find? (fun t => t.definition.name = name)

/-- `ToolRegistry.register`: throws when a tool of that name exists,
otherwise appends. -/
def ToolRegistry.register (reg : ToolRegistry) (tool : Tool) :
    Except String ToolRegistry :=
  if reg.any (fun t => t.definition.name = tool.definition.name) then
    Except.error ("Tool \"" ++ tool.definition.name ++
      "\" is already registered")
  else
    Except.ok (reg ++ [tool])

/-- All registered definitions, in registration order
(`allDefinitions`). -/
def ToolRegistry.allDefinitions (reg : ToolRegistry) : List ToolDefinition :=
  reg.map (fun t => t.definition)

/-- Definitions filtered by an allowlist (`filteredDefinitions`):
everything when the allowlist is absent or empty, else the intersection
by name in registration order. -/
def ToolRegistry.filteredDefinitions (reg : ToolRegistry)
    (allowlist : Option (List String)) : List ToolDefinition :=
  match allowlist with
  | none => reg.allDefinitions
  | some l =>
    if l.length = 0 then reg.allDefinitions
    else (reg.filter (fun t => l.contains t.definition.name)).map
      (fun t => t.definition)

/-- `ToolRegistry.execute`: dispatch a tool call. Never throws — every
failure (unknown name, `JSON.parse` failure, handler throw) is returned
as the text `JSON.stringify(\x7b error: message \x7d)`; a successful
handler's text is returned verbatim. `parseJson` models the external
`JSON.parse`. -/
def ToolRegistry.execute (parseJson : String → Except String Json)
    (reg : ToolRegistry) (name argsJson : String) : String :=
  match reg.get name with
  | none => jsonErrorPayload ("Unknown tool: " ++ name)
  | some tool =>
    match parseJson argsJson with
    | Except.error msg => jsonErrorPayload msg
    | Except.ok args =>
      match tool.handler args with
      | Except.ok text => text
      | Except.error msg => jsonErrorPayload msg

/-! ## Long-term memory (`src/memory/long-term.ts`)

The file I/O of `LongTermMemory.read`/`write` is external; the model
keeps only the path and the observable shape of `createTool`. -/

/-- `LongTermMemory`: holds the path of the `MEMORY.md` file. -/
structure LongTermMemory where
  memoryPath : String

/-- The `update_memory` tool built by `LongTermMemory.createTool`. Its
handler overwrites the memory file (an external effect, dropped here)
and resolves with a fixed confirmation text. -/
def LongTermMemory.createTool (_mem : LongTermMemory) : Tool :=
  { definition :=
      { name := "update_memory",
        description := "Update the long-term memory (MEMORY.md). " ++
          "Use this to store important facts, user preferences, or project context " ++
          "that should be remembered across sessions.",
        parameters :=
          { properties :=
              [(("content" : String), ToolParameter.mk ("string")
                (some ("The new content for the memory file. Should be concise and structured."))
                none none none none)],
            required := some [("content" : String)] } },
    handler := fun _args => Except.ok ("Long-term memory updated successfully.") }

/-! ## History compaction (`src/memory/compaction.ts`) -/

/-- Result of a successful compaction (`CompactionResult`). -/
structure CompactionResult where
  messages : List Message
  summaryMessage : Message
  compactedCount : Nat

/-- The compactor's state (`MemoryCompactor`), with the defaults of
`CompactionOptions` applied. -/
structure MemoryCompactor where
  llm : LLM
  keepRecentCount : Nat := 6
  summaryTokenLimit : Nat := 500

/-- JS `role.toUpperCase()` for the four roles. -/
def Role.upper : Role → String
  | .system => "SYSTEM"
  | .user => "USER"
  | .assistant => "ASSISTANT"
  | .tool => "TOOL"

/-- The summarization prompt template of `MemoryCompactor.summarize`. -/
def summaryPrompt (summaryTokenLimit : Nat) (messages : List Message) :
    String :=
  "Please provide a concise, factual summary of the following conversation history.\n" ++
  "Focus on:\n" ++
  "1. User goals and preferences discovered\n" ++
  "2. Key information retrieved from tools\n" ++
  "3. Important decisions made\n" ++
  "4. Pending tasks or open questions\n\n" ++
  "Keep the summary under " ++ toString summaryTokenLimit ++
  " tokens. Respond with ONLY the summary text.\n\n" ++
  "--- CONVERSATION HISTORY ---\n" ++
  String.intercalate ("\n\n")
    (messages.map (fun m => m.role.upper ++ ": " ++
      (m.content.getD ("(tool calls)")))) ++
  "\n"

/-- `MemoryCompactor.summarize`: one LLM call with no tools; a falsy
(`null` or empty) response content falls back to a placeholder. -/
def MemoryCompactor.summarize (c : MemoryCompactor)
    (messages : List Message) : Except String String :=
  match c.llm [{ role := Role.user,
                 content := some (summaryPrompt c.summaryTokenLimit messages) }]
          [] with
  | Except.error e => Except.error e
  | Except.ok response =>
    Except.ok (match response.content with
      | some s => if s = "" then "(Failed to generate summary)" else s
      | none => "(Failed to generate summary)")

/-- The tag line of a compaction summary message, for `count` compacted
messages. -/
def summaryMessageContent (count : Nat) (summaryContent : String) : String :=
  "[Context summary: the following is a summary of " ++ toString count ++
  " earlier message(s) that were compacted to save context space]\n\n" ++
  summaryContent

/-- `MemoryCompactor.compact`: refuse (`null`) when the history has at
most `keepRecentCount + 2` messages; otherwise summarize the older
prefix (skipping prior summaries) and replace it by a single tagged
`system` message followed by the untouched recent suffix. -/
def MemoryCompactor.compact (c : MemoryCompactor) (messages : List Message) :
    Except String (Option CompactionResult) :=
  if messages.length ≤ c.keepRecentCount + 2 then
    Except.ok none
  else
    let splitIndex := messages.length - c.keepRecentCount
    let toCompact := messages.take splitIndex
    let recent := messages.drop splitIndex
    let filteredToCompact := toCompact.filter
      (fun m => !contentIncludes m.content ("[Context summary:"))
    match c.summarize filteredToCompact with
    | Except.error e => Except.error e
    | Except.ok summaryContent =>
      let summaryMessage : Message :=
        { role := Role.system,
          content := some (summaryMessageContent toCompact.length
            summaryContent) }
      Except.ok (some
        { messages := summaryMessage :: recent,
          summaryMessage := summaryMessage,
          compactedCount := toCompact.length })

/-- `MemoryCompactor.shouldCompact`: trigger when the summed estimate
exceeds 80% of `maxTokens` (exact arithmetic: `5·total > 4·maxTokens`;
`maxTokens` may be negative, it is the remaining budget). -/
def MemoryCompactor.shouldCompact (_c : MemoryCompactor)
    (messages : List Message) (maxTokens : Int) : Bool :=
  ((5 * totalMsgTokens messages : Int) > 4 * maxTokens : Bool)

/-! ## Context builder (`src/context-builder.ts`) -/

/-- Result of `ContextBuilder.build` (`ContextBuildResult`). -/
structure ContextBuildResult where
  systemPrompt : String
  messages : List Message
  tools : List ToolDefinition
  tokenEstimate : Nat
  updatedHistory : Option (List Message) := none

/-- The builder's state (`ContextBuilder` fields, defaults applied).
`memory` is the long-term-memory collaborator represented by the content
its `read()` returns (`none` when no memory is configured — the file
read is external I/O); `now` is the timestamp side input of the prompt
assembler. -/
structure ContextBuilder where
  config : AgentConfig
  registry : ToolRegistry
  skills : List SkillMeta := []
  maxContextTokens : Nat := 32000
  extraSections : List PromptSection := []
  compactor : Option MemoryCompactor := none
  memory : Option String := none
  now : String := ""

/-- The compaction step of `ContextBuilder.build`: when a compactor is
configured and its trigger fires, run it; a successful compaction
replaces the working history and records it as `updatedHistory`. -/
def compactStep (compactor : Option MemoryCompactor)
    (messages : List Message) (budget : Int) :
    Except String (List Message × Option (List Message)) :=
  match compactor with
  | some c =>
    if c.shouldCompact messages budget then
      match c.compact messages with
      | Except.error e => Except.error e
      | Except.ok (some result) =>
        Except.ok (result.messages, some result.messages)
      | Except.ok none => Except.ok (messages, none)
    else Except.ok (messages, none)
  | none => Except.ok (messages, none)

/-- The extra sections of a build: the configured ones plus, when the
memory read is truthy, the `Long-Term Memory` section. -/
def ContextBuilder.effectiveSections (cb : ContextBuilder) :
    List PromptSection :=
  cb.extraSections ++
    (if cb.memory.getD ("") = "" then []
     else [{ heading := "Long-Term Memory",
             content := cb.memory.getD ("") }])

/-- The system prompt a build assembles (named here so that the budget
below is a closed function of the builder state; the source computes it
inline in `build`). -/
def ContextBuilder.systemPromptOf (cb : ContextBuilder) : String :=
  buildSystemPrompt
    { config := cb.config,
      tools := cb.registry.filteredDefinitions cb.config.toolAllowlist,
      skills := if cb.skills.length > 0 then some cb.skills else none,
      extraSections := if cb.effectiveSections.length > 0 then
        some cb.effectiveSections else none }
    cb.now

/-- The message budget of a build:
`maxContextTokens − estimatedSystemPromptTokens`. -/
def ContextBuilder.budget (cb : ContextBuilder) : Int :=
  (cb.maxContextTokens : Int) - estimateTokens cb.systemPromptOf

/-- `ContextBuilder.build`: select tools, read memory, assemble the
system prompt, then against the budget optionally compact (recording
`updatedHistory`) and tail-prune. The pruned list is adopted only when
its length differs from the input's. -/
def ContextBuilder.build (cb : ContextBuilder)
    (conversationHistory : List Message) : Except String ContextBuildResult :=
  let tools := cb.registry.filteredDefinitions cb.config.toolAllowlist
  let systemPrompt := cb.systemPromptOf
  let systemTokens := estimateTokens systemPrompt
  let budget : Int := cb.budget
  match compactStep cb.compactor conversationHistory budget with
  | Except.error e => Except.error e
  | Except.ok (messages, updatedHistory) =>
    let prunedMessages := pruneMessages messages budget
    let messages := if prunedMessages.length ≠ messages.length then
      prunedMessages else messages
    Except.ok
      { systemPrompt := systemPrompt, messages := messages, tools := tools,
        tokenEstimate := systemTokens + totalMsgTokens messages,
        updatedHistory := updatedHistory }

/-! ## Fake tool-call markup stripping (`src/agent.ts` `stripFakeToolCalls`) -/

/-- Split `l` at the first occurrence of `pat`: `some (before, after)`
where `after` starts right past `pat`. -/
def splitFirst (pat : List Char) : List Char → Option (List Char × List Char)
  | [] => if pat.isEmpty then some ([], []) else none
  | c :: rest =>
    if pat.isPrefixOf (c :: rest) then some ([], (c :: rest).drop pat.length)
    else
      match splitFirst pat rest with
      | some (a, b) => some (c :: a, b)
      | none => none

/-- Splitting accounts for every character. -/
theorem splitFirst_length (pat : List Char) :
    ∀ l a b, splitFirst pat l = some (a, b) →
      a.length + pat.length + b.length = l.length := by
  intro l
  induction l with
  | nil =>
    intro a b h
    by_cases hp : pat.isEmpty
    · have hpe : pat = [] := List.isEmpty_iff.mp hp
      simp [splitFirst, hp] at h
      rcases h with ⟨h1, h2⟩
      subst h1
      subst h2
      simp [hpe]
    · simp [splitFirst, hp] at h
  | cons c rest ih =>
    intro a b h
    by_cases hp : pat.isPrefixOf (c :: rest)
    · simp [splitFirst, hp] at h
      rcases h with ⟨h1, h2⟩
      have hle : pat.length ≤ (c :: rest).length :=
        (List.isPrefixOf_iff_prefix.mp hp).length_le
      subst h1
      subst h2
      have hle2 : pat.length ≤ rest.length + 1 := by simpa using hle
      simp only [List.length_nil, List.length_cons, List.length_drop]
      omega
    · simp only [splitFirst, hp, if_false] at h
      cases hsp : splitFirst pat rest with
      | none => rw [hsp] at h; exact absurd h (by simp)
      | some ab =>
        rw [hsp] at h
        rcases ab with ⟨a', b'⟩
        simp at h
        rcases h with ⟨h1, h2⟩
        have := ih a' b' hsp
        simp [← h1, ← h2]
        omega

/-- Remove every (non-greedy, left-to-right) block delimited by
`openTag … closeTag`, as `text.replace(/open[\s\S]*?close/g, "")` does:
at the first occurrence of `openTag`, the block ends at the earliest
following `closeTag`; scanning resumes after the removed block. The
fuel only bounds the number of removed blocks; by
`splitFirst_length` each removal consumes at least `openTag.length ≥ 1`
characters, so `s.length + 1` passes never exhaust it. -/
def removeBlocksGo : Nat → List Char → List Char → List Char → List Char
  | 0, _, _, s => s
  | fuel + 1, openTag, closeTag, s =>
    if openTag.isEmpty then s
    else
      match splitFirst openTag s with
      | none => s
      | some (a, rest) =>
        match splitFirst closeTag rest with
        | none => s
        | some (_, c) => a ++ removeBlocksGo fuel openTag closeTag c

/-- Entry point of the block removal with sufficient fuel. -/
def removeBlocks (openTag closeTag : List Char) (s : List Char) :
    List Char :=
  removeBlocksGo (s.length + 1) openTag closeTag s

/-- `stripFakeToolCalls` (`src/agent.ts`): strip DeepSeek DSML markup
(from its first occurrence to the end), `<function_call>` blocks and
markdown `tool_code` fences, then trim. -/
def stripFakeToolCalls (text : String) : String :=
  let cleaned :=
    match splitFirst (("<｜DSML｜" : String).data) text.data with
    | some (a, _) => a
    | none => text.data
  let cleaned :=
    removeBlocks (("<function_call>" : String).data)
      (("</function_call>" : String).data) cleaned
  let cleaned :=
    removeBlocks (("```tool_code" : String).data) (("```" : String).data)
      cleaned
  jsTrim ⟨cleaned⟩

/-! ## The agent (`src/agent.ts`) -/

/-- Result of `Agent.run` (`AgentRunResult`). -/
structure AgentRunResult where
  response : String
  messages : List Message
  iterations : Nat
  totalTokens : Nat

/-- One `llm.chat(messages, tools)` invocation, as recorded in the run
trace. -/
structure LLMCall where
  messages : List Message
  tools : List ToolDefinition

/-- Outcome of a run: the returned value (or the propagated provider
error), the conversation history held by the agent afterwards, and the
trace of LLM invocations made. -/
structure RunOutput where
  result : Except String AgentRunResult
  history : List Message
  trace : List LLMCall

/-- `DEFAULT_MAX_ITERATIONS` of `src/agent.ts`. -/
def DEFAULT_MAX_ITERATIONS : Nat := 10

/-- The last-chance nudge injected when one step remains. -/
def nudgeMessage : Message :=
  { role := Role.system,
    content := some ("[IMPORTANT: This is your LAST chance to use tools. " ++
      "After this step, you MUST provide your final answer directly. " ++
      "If you already have enough information, respond NOW without calling tools.]") }

/-- The hard-stop instruction injected on the forced-answer iteration. -/
def hardStopMessage : Message :=
  { role := Role.system,
    content := some ("[FINAL STEP: You CANNOT call any tools. " ++
      "Based on ALL the information you have gathered in previous steps, " ++
      "provide your complete, well-structured answer NOW. " ++
      "Respond in the same language as the user\x27s original question.]") }

/-- The agent's state and collaborators (`AgentOptions` plus the
external inputs of the builder; the constructor leaves the builder's
`maxContextTokens` at its default). -/
structure Agent where
  config : AgentConfig
  llm : LLM
  registry : ToolRegistry
  skills : List SkillMeta := []
  extraSections : List PromptSection := []
  compactor : Option MemoryCompactor := none
  memory : Option String := none
  maxContextTokens : Nat := 32000
  now : String := ""
  parseJson : String → Except String Json

/-- The `ContextBuilder` the constructor creates from the options. -/
def Agent.builder (a : Agent) : ContextBuilder :=
  { config := a.config, registry := a.registry, skills := a.skills,
    maxContextTokens := a.maxContextTokens,
    extraSections := a.extraSections, compactor := a.compactor,
    memory := a.memory, now := a.now }

/-- Keep a string only when truthy (models `if (x) { target.f = x }`
for optional string fields). -/
def truthyOrNone : Option String → Option String
  | some s => if s = "" then none else some s
  | none => none

/-- The `tool` message recorded for one executed tool call. -/
def toolResultMessage (parseJson : String → Except String Json)
    (reg : ToolRegistry) (tc : ToolCall) : Message :=
  { role := Role.tool,
    content := some (ToolRegistry.execute parseJson reg tc.name tc.arguments),
    tool_call_id := some tc.id,
    name := some tc.name }

/-- The messages composed for the LLM call of an iteration with
`remainingSteps = k`: the system prompt, the built context messages,
then the nudge (one step left) or the hard stop (no step left). -/
def composeLLMMessages (systemPrompt : String) (ctxMessages : List Message)
    (k : Nat) : List Message :=
  ({ role := Role.system, content := some systemPrompt } :: ctxMessages)
    ++ (if decide (k ≤ 1) && !(k == 0) then [nudgeMessage] else [])
    ++ (if (k == 0 : Bool) then [hardStopMessage] else [])

/-- The tool list offered to the LLM: withheld on the forced-answer
iteration (`remainingSteps = 0`). -/
def composeToolsArg (ctxTools : List ToolDefinition) (k : Nat) :
    List ToolDefinition :=
  if (k == 0 : Bool) then [] else ctxTools

/-- The `while (iterations < maxIter)` loop of `Agent.run`. The fuel is
`maxIter − iterations`; at fuel `k + 1` the loop body runs with
`iterations = maxIter − k` (after the increment), so
`remainingSteps = k`, `shouldForceAnswer ↔ k = 0` and
`shouldNudge ↔ k = 1`. At fuel 0 the loop has exhausted its iterations
and falls back to the most recent truthy assistant content. -/
def agentLoop (a : Agent) (maxIter : Nat) :
    Nat → List Message → Nat → List LLMCall → RunOutput
  | 0, history, totalTokens, trace =>
    let lastAssistant := history.reverse.find?
      (fun m => decide (m.role = Role.assistant) && strTruthy m.content)
    let fallback :=
      match lastAssistant with
      | some m => m.content.getD ("")
      | none => "I\x27ve reached the maximum number of reasoning steps."
    let fallbackMsg : Message :=
      { role := Role.assistant, content := some fallback }
    let history := history ++ [fallbackMsg]
    let runResult : AgentRunResult :=
      { response := fallback, messages := history,
        iterations := maxIter, totalTokens := totalTokens }
    { result := Except.ok runResult, history := history, trace := trace }
  | k + 1, history, totalTokens, trace =>
    match (a.builder).build history with
    | Except.error e =>
      { result := Except.error e, history := history, trace := trace }
    | Except.ok ctx =>
      let totalTokens := totalTokens + ctx.tokenEstimate
      let history := ctx.updatedHistory.getD history
      let shouldForceAnswer : Bool := k == 0
      let llmMessages := composeLLMMessages ctx.systemPrompt ctx.messages k
      let toolsArg := composeToolsArg ctx.tools k
      let trace := trace ++ [{ messages := llmMessages, tools := toolsArg }]
      match a.llm llmMessages toolsArg with
      | Except.error e =>
        { result := Except.error e, history := history, trace := trace }
      | Except.ok response =>
        if response.toolCalls.length > 0 && !shouldForceAnswer then
          let assistantMsg : Message :=
            { role := Role.assistant, content := response.content,
              tool_calls := response.toolCalls,
              reasoning_content := truthyOrNone response.reasoningContent }
          let toolMessages := response.toolCalls.map
            (toolResultMessage a.parseJson a.registry)
          agentLoop a maxIter k (history ++ assistantMsg :: toolMessages)
            totalTokens trace
        else
          let finalContent := stripFakeToolCalls (response.content.getD (""))
          let finalMsg : Message :=
            { role := Role.assistant, content := some finalContent,
              reasoning_content := truthyOrNone response.reasoningContent }
          let history := history ++ [finalMsg]
          let runResult : AgentRunResult :=
            { response := finalContent, messages := history,
              iterations := maxIter - k, totalTokens := totalTokens }
          { result := Except.ok runResult, history := history,
            trace := trace }

/-- The `user` message `run` appends before its first LLM call. -/
def userMessageRecord (userMessage : String) : Message :=
  { role := Role.user, content := some userMessage }

/-- `Agent.run`: append the user message, then run the bounded ReAct
loop. `history` is the conversation history held by the agent when `run`
is entered. -/
def Agent.run (a : Agent) (userMessage : String) (history : List Message) :
    RunOutput :=
  let history := history ++ [userMessageRecord userMessage]
  let maxIter := a.config.maxIterations.getD DEFAULT_MAX_ITERATIONS
  agentLoop a maxIter maxIter history 0 []

/-- The observable registry effect of the `Agent` constructor: when the
`memory` option is provided, `createTool()` is registered into the
caller-supplied shared registry (and a duplicate-registration error
propagates out of the constructor); without `memory` the registry is
untouched. -/
def Agent.construct (memory : Option LongTermMemory)
    (registry : ToolRegistry) : Except String ToolRegistry :=
  match memory with
  | some mem => registry.register mem.createTool
  | none => Except.ok registry

/-! ## Helper lemmas -/

/-- Ceiling division by four: `⌈n / 4⌉ = (n + 3) / 4` on naturals. -/
theorem natCeil_div_four (n : ℕ) : ⌈(n : ℚ) / 4⌉₊ = (n + 3) / 4 := by
  rcases Nat.eq_zero_or_pos n with h0 | hpos
  · subst h0
    simp
  · have hk : (n + 3) / 4 ≠ 0 := by omega
    rw [Nat.ceil_eq_iff hk]
    constructor
    · rw [lt_div_iff₀ (by norm_num : (0 : ℚ) < 4)]
      have h : ((n + 3) / 4 - 1) * 4 < n := by omega
      exact_mod_cast h
    · rw [div_le_iff₀ (by norm_num : (0 : ℚ) < 4)]
      have h : n ≤ ((n + 3) / 4) * 4 := by omega
      exact_mod_cast h

/-- C8 auxiliary: the two character classes partition the string. -/
theorem cjk_other_partition (s : String) :
    cjkCount s + otherCount s = s.length := by
  unfold cjkCount otherCount
  rw [String.length]
  induction s.data with
  | nil => simp
  | cons c cs ih =>
    by_cases h : isCjkChar c <;>
      simp [List.countP_cons, h, ← ih] <;> omega

/-- C8: `estimateTokens` computes `⌈cjk / 2 + other / 4⌉` exactly. -/
theorem estimateTokens_eq_ceil (s : String) :
    estimateTokens s = ⌈(cjkCount s : ℚ) / 2 + (otherCount s : ℚ) / 4⌉₊ := by
  have hq : (cjkCount s : ℚ) / 2 + (otherCount s : ℚ) / 4 =
      ((2 * cjkCount s + otherCount s : ℕ) : ℚ) / 4 := by
    push_cast
    ring
  rw [estimateTokens, hq, natCeil_div_four]

/-- C8: for every string, `estimateTokens` equals
`⌈cjk/2 + other/4⌉` where `cjk` counts the characters whose code point
exceeds `0x2E80` and `other` the rest; in particular the empty string
estimates to 0 tokens. `estimateTokens` is a plain function of the
string, which models its purity. -/
theorem estimateTokens_spec :
    (∀ s : String,
      estimateTokens s = ⌈(cjkCount s : ℚ) / 2 + (otherCount s : ℚ) / 4⌉₊) ∧
    estimateTokens ("") = 0 :=
  ⟨estimateTokens_eq_ceil, by decide⟩

/-- Escaping distributes over the character lists of appended strings. -/
theorem jsonEscape_data_append (a b : String) :
    (jsonEscape (a ++ b)).data = (jsonEscape a).data ++ (jsonEscape b).data := by
  show ((a ++ b).data.map jsonEscChar).flatten = _
  rw [String.data_append, List.map_append, List.flatten_append]
  rfl

/-- The error payload for an unknown tool literally contains
`Unknown tool` regardless of the tool name. -/
theorem unknown_tool_payload_infix (name : String) :
    ("Unknown tool" : String).data <:+:
      (jsonErrorPayload ("Unknown tool: " ++ name)).data := by
  have hesc : (jsonEscape ("Unknown tool: " ++ name)).data =
      ("Unknown tool: " : String).data ++ (jsonEscape name).data := by
    rw [jsonEscape_data_append]
    have : (jsonEscape ("Unknown tool: ")).data =
        ("Unknown tool: " : String).data := by decide
    rw [this]
  have hdata : (jsonErrorPayload ("Unknown tool: " ++ name)).data =
      ("\x7b\"error\":\"" : String).data ++
        (("Unknown tool" : String).data ++
          ((": " : String).data ++ ((jsonEscape name).data ++
            ("\"\x7d" : String).data))) := by
    show ("\x7b\"error\":" ++ ("\"" ++ jsonEscape ("Unknown tool: " ++ name)
      ++ "\"") ++ "\x7d").data = _
    simp only [String.data_append, hesc]
    simp [List.append_assoc]
  rw [hdata]
  exact ⟨("\x7b\"error\":\"" : String).data,
    (": " : String).data ++ ((jsonEscape name).data ++
      ("\"\x7d" : String).data), by simp [List.append_assoc]⟩

/-- C2: `ToolRegistry.execute` never throws (it is a total function into
`String`) and for every name and argument text: an unregistered name
yields the `\x7b error: "Unknown tool: <name>" \x7d` payload, which
contains the literal substring `Unknown tool`; a `JSON.parse` failure or
a handler throw yields `\x7b error: <message> \x7d`; a successful
handler's text is returned verbatim. -/
theorem execute_spec (parseJson : String → Except String Json)
    (reg : ToolRegistry) (name argsJson : String) :
    (reg.get name = none →
      ToolRegistry.execute parseJson reg name argsJson =
        jsonErrorPayload ("Unknown tool: " ++ name) ∧
      ("Unknown tool" : String).data <:+:
        (ToolRegistry.execute parseJson reg name argsJson).data) ∧
    (∀ tool, reg.get name = some tool →
      (∀ msg, parseJson argsJson = Except.error msg →
        ToolRegistry.execute parseJson reg name argsJson =
          jsonErrorPayload msg) ∧
      (∀ args text, parseJson argsJson = Except.ok args →
        tool.handler args = Except.ok text →
        ToolRegistry.execute parseJson reg name argsJson = text) ∧
      (∀ args msg, parseJson argsJson = Except.ok args →
        tool.handler args = Except.error msg →
        ToolRegistry.execute parseJson reg name argsJson =
          jsonErrorPayload msg)) := by
  constructor
  · intro hnone
    rw [ToolRegistry.execute, hnone]
    exact ⟨rfl, unknown_tool_payload_infix name⟩
  · intro tool hsome
    refine ⟨?_, ?_, ?_⟩
    · intro msg hp
      simp only [ToolRegistry.execute, hsome, hp]
    · intro args text hp hh
      simp only [ToolRegistry.execute, hsome, hp, hh]
    · intro args msg hp hh
      simp only [ToolRegistry.execute, hsome, hp, hh]

/-- A tiny tool used by concrete witnesses: echoes a fixed text, throws
on `null` arguments. -/
def echoTool : Tool :=
  { definition :=
      { name := "echo", description := "Echo a fixed text",
        parameters := { properties := [], required := none } },
    handler := fun args =>
      match args with
      | Json.null => Except.error ("boom")
      | _ => Except.ok ("echoed") }

/-- C2 witness: the theorem applied at concrete inputs — an unknown
name on the empty registry, and the three branches on a one-tool
registry. -/
theorem execute_spec_witness :
    (ToolRegistry.execute (fun _ => Except.ok Json.null) [] ("nope") ("x") =
      jsonErrorPayload ("Unknown tool: nope") ∧
      ("Unknown tool" : String).data <:+:
        (ToolRegistry.execute (fun _ => Except.ok Json.null) []
          ("nope") ("x")).data) ∧
    ToolRegistry.execute (fun _ => Except.error ("bad json")) [echoTool]
      ("echo") ("x") = jsonErrorPayload ("bad json") ∧
    ToolRegistry.execute (fun _ => Except.ok (Json.str ("a"))) [echoTool]
      ("echo") ("x") = "echoed" ∧
    ToolRegistry.execute (fun _ => Except.ok Json.null) [echoTool]
      ("echo") ("x") = jsonErrorPayload ("boom") := by
  refine ⟨?_, ?_, ?_, ?_⟩
  · exact (execute_spec (fun _ => Except.ok Json.null) [] ("nope") ("x")).1
      rfl
  · exact ((execute_spec (fun _ => Except.error ("bad json")) [echoTool]
      ("echo") ("x")).2 echoTool rfl).1 ("bad json") rfl
  · exact (((execute_spec (fun _ => Except.ok (Json.str ("a"))) [echoTool]
      ("echo") ("x")).2 echoTool rfl).2).1 (Json.str ("a"))
      ("echoed") rfl rfl
  · exact (((execute_spec (fun _ => Except.ok Json.null) [echoTool]
      ("echo") ("x")).2 echoTool rfl).2).2 Json.null ("boom") rfl rfl

/-- C9: constructing an `Agent` with a `memory` option registers the
`update_memory` tool into the shared registry as a side effect; a second
construction sharing the same registry with a `memory` option then
throws the duplicate-registration error before any run starts. -/
theorem agent_construct_memory_duplicate (reg : ToolRegistry)
    (hfree : reg.any
      (fun t => t.definition.name = ("update_memory" : String)) = false)
    (mem mem' : LongTermMemory) :
    Agent.construct (some mem) reg =
      Except.ok (reg ++ [mem.createTool]) ∧
    ((reg ++ [mem.createTool]).any
      (fun t => t.definition.name = ("update_memory" : String)) = true) ∧
    Agent.construct (some mem') (reg ++ [mem.createTool]) =
      Except.error ("Tool \"update_memory\" is already registered") := by
  have hname : (mem.createTool).definition.name = "update_memory" := rfl
  have hreg1 : Agent.construct (some mem) reg =
      Except.ok (reg ++ [mem.createTool]) := by
    show reg.register mem.createTool = _
    rw [ToolRegistry.register, hname]
    rw [hfree]
    simp
  have hany : (reg ++ [mem.createTool]).any
      (fun t => t.definition.name = ("update_memory" : String)) = true := by
    rw [List.any_append, hfree]
    simp [hname]
  refine ⟨hreg1, hany, ?_⟩
  show (reg ++ [mem.createTool]).register mem'.createTool = _
  rw [ToolRegistry.register]
  have hname' : (mem'.createTool).definition.name = "update_memory" := rfl
  rw [hname', hany]
  simp

/-- C9 witness: the theorem applied to the empty registry. -/
theorem agent_construct_memory_duplicate_witness :
    Agent.construct (some ⟨("/w/MEMORY.md" : String)⟩) [] =
      Except.ok ([] ++ [LongTermMemory.createTool ⟨("/w/MEMORY.md" : String)⟩]) ∧
    Agent.construct (some ⟨("/w2/MEMORY.md" : String)⟩)
        ([] ++ [LongTermMemory.createTool ⟨("/w/MEMORY.md" : String)⟩]) =
      Except.error ("Tool \"update_memory\" is already registered") := by
  have h := agent_construct_memory_duplicate [] rfl
    ⟨("/w/MEMORY.md" : String)⟩ ⟨("/w2/MEMORY.md" : String)⟩
  exact ⟨h.1, h.2.2⟩

/-- Unfolding of the pruning walk at index 0. -/
theorem pruneLoopGo_zero (toks : List Nat) (budget : Int) (n : Nat)
    (used : Nat) :
    pruneLoopGo toks budget n 0 used =
      if ((used + toks.getD 0 0 : Int) > budget) ∧ 0 < n - 1 then 1
      else 0 := rfl

/-- Unfolding of the pruning walk at a successor index. -/
theorem pruneLoopGo_succ (toks : List Nat) (budget : Int) (n : Nat)
    (i' used : Nat) :
    pruneLoopGo toks budget n (i' + 1) used =
      if ((used + toks.getD (i' + 1) 0 : Int) > budget) ∧ i' + 1 < n - 1
      then i' + 2
      else pruneLoopGo toks budget n i' (used + toks.getD (i' + 1) 0) := rfl

/-- The walk never cuts past the most recent message. -/
theorem pruneLoopGo_le (toks : List Nat) (budget : Int) (n : Nat) :
    ∀ i used, pruneLoopGo toks budget n i used ≤ n - 1 ∨
      pruneLoopGo toks budget n i used = 0 := by
  intro i
  induction i with
  | zero =>
    intro used
    rw [pruneLoopGo_zero]
    by_cases hc : ((used + toks.getD 0 0 : Int) > budget) ∧ 0 < n - 1
    · left
      rw [if_pos hc]
      omega
    · right
      rw [if_neg hc]
  | succ i' ih =>
    intro used
    rw [pruneLoopGo_succ]
    by_cases hc : ((used + toks.getD (i' + 1) 0 : Int) > budget) ∧
        i' + 1 < n - 1
    · left
      rw [if_pos hc]
      omega
    · rw [if_neg hc]
      exact ih (used + toks.getD (i' + 1) 0)

/-- Prefix sums of the token list. -/
theorem sum_take_succ (toks : List Nat) (i : Nat) :
    (toks.take (i + 1)).sum = (toks.take i).sum + toks.getD i 0 := by
  rw [List.take_succ, List.sum_append]
  rw [List.getD_eq_getElem?_getD]
  cases h : toks[i]? with
  | none => simp
  | some v => simp

/-- When everything to the left still fits the budget, the walk keeps
every message (`cutoff = 0`). -/
theorem pruneLoopGo_in_budget (toks : List Nat) (budget : Int) (n : Nat) :
    ∀ (i : Nat) (used : Nat),
      ((used : Int) + ((toks.take (i + 1)).sum : Int) ≤ budget) →
      pruneLoopGo toks budget n i used = 0 := by
  intro i
  induction i with
  | zero =>
    intro used h
    have hs := sum_take_succ toks 0
    rw [pruneLoopGo_zero]
    have hnb : ¬ ((used + toks.getD 0 0 : Int) > budget) := by
      simp only [List.take_zero, List.sum_nil] at hs
      rw [hs] at h
      push_cast at h ⊢
      omega
    rw [if_neg (fun hand => hnb hand.1)]
  | succ i' ih =>
    intro used h
    have hs := sum_take_succ toks (i' + 1)
    rw [pruneLoopGo_succ]
    have hsum' : ((used + toks.getD (i' + 1) 0 : Nat) : Int) +
        ((toks.take (i' + 1)).sum : Int) ≤ budget := by
      rw [hs] at h
      push_cast at h ⊢
      omega
    have hnb : ¬ ((used + toks.getD (i' + 1) 0 : Int) > budget) := by
      have hnn : (0 : Int) ≤ ((toks.take (i' + 1)).sum : Int) := by
        exact_mod_cast Nat.zero_le _
      push_cast at hsum' ⊢
      omega
    rw [if_neg (fun hand => hnb hand.1)]
    exact ih (used + toks.getD (i' + 1) 0) hsum'

/-- `totalMsgTokens` is the sum of the per-message estimates. -/
theorem totalMsgTokens_eq_sum :
    ∀ (messages : List Message) (a : Nat),
      messages.foldl (fun s m => s + msgTokens m) a =
        a + (messages.map msgTokens).sum := by
  intro messages
  induction messages with
  | nil => intro a; simp
  | cons m ms ih =>
    intro a
    simp only [List.foldl_cons, List.map_cons, List.sum_cons]
    rw [ih]
    omega

/-- The cutoff never exceeds `length − 1`: the most recent message is
always kept. -/
theorem pruneCutoff_le (messages : List Message) (budget : Int) :
    pruneCutoff messages budget ≤ messages.length - 1 := by
  unfold pruneCutoff
  by_cases h0 : messages.length = 0
  · rw [if_pos h0]
    omega
  · rw [if_neg h0]
    rcases pruneLoopGo_le (messages.map msgTokens) budget messages.length
        (messages.length - 1) 0 with hle | hz
    · exact hle
    · rw [hz]
      omega

/-- An in-budget history yields `cutoff = 0`. -/
theorem pruneCutoff_in_budget (messages : List Message) (budget : Int)
    (h : ((totalMsgTokens messages : Nat) : Int) ≤ budget) :
    pruneCutoff messages budget = 0 := by
  unfold pruneCutoff
  by_cases h0 : messages.length = 0
  · rw [if_pos h0]
  · rw [if_neg h0]
    apply pruneLoopGo_in_budget
    have hlen : (messages.map msgTokens).length = messages.length :=
      List.length_map _ _
    have htake : (messages.map msgTokens).take (messages.length - 1 + 1) =
        messages.map msgTokens := by
      apply List.take_of_length_le
      omega
    rw [htake]
    have hsum : (messages.map msgTokens).sum = totalMsgTokens messages := by
      have := totalMsgTokens_eq_sum messages 0
      unfold totalMsgTokens
      omega
    rw [hsum]
    simpa using h

/-- `pruneMessages` in terms of the cutoff, for non-empty input. -/
theorem pruneMessages_eq (messages : List Message) (budget : Int)
    (h : messages ≠ []) :
    pruneMessages messages budget =
      if 0 < pruneCutoff messages budget then
        pruneNotice (pruneCutoff messages budget) ::
          messages.drop (pruneCutoff messages budget)
      else messages := by
  unfold pruneMessages
  have h0 : ¬ (messages.length = 0) := by
    simpa using fun hh => h (List.length_eq_zero.mp hh)
  rw [if_neg h0]
  by_cases hcut : 0 < pruneCutoff messages budget
  · simp [hcut]
  · have hc0 : pruneCutoff messages budget = 0 := by omega
    simp [hcut, hc0]

/-- An in-budget history is returned unchanged by `pruneMessages`. -/
theorem pruneMessages_in_budget (messages : List Message) (budget : Int)
    (h : ((totalMsgTokens messages : Nat) : Int) ≤ budget) :
    pruneMessages messages budget = messages := by
  by_cases hnil : messages = []
  · subst hnil
    rfl
  · rw [pruneMessages_eq messages budget hnil,
      pruneCutoff_in_budget messages budget h]
    simp

/-- A small four-token message used in concrete pruning examples. -/
def fourTokenCharMsg : Message :=
  { role := Role.user, content := some ("aaaa") }

/-- The three-message history of the idempotency counterexample. -/
def pruneCexMsgs : List Message :=
  [fourTokenCharMsg, fourTokenCharMsg, fourTokenCharMsg]

/-- C4 counterexample: with a budget of one token, pruning three
one-token messages keeps only the last one behind a notice naming two
pruned messages; pruning that result again replaces the notice by one
naming a single pruned message (the first notice itself busts the
budget), so the function is not idempotent. -/
theorem pruneMessages_not_idempotent :
    pruneMessages (pruneMessages pruneCexMsgs 1) 1 ≠
      pruneMessages pruneCexMsgs 1 := by decide

/-- C4 amended: an in-budget message list is returned unchanged, so
tail-pruning is idempotent whenever the pruned output (its notice
included) still fits the budget; unrestricted idempotency fails because
the synthetic notice is itself charged against the budget on a second
pass. -/
theorem pruneMessages_idempotent_in_budget (messages : List Message)
    (budget : Int) :
    (((totalMsgTokens messages : Nat) : Int) ≤ budget →
      pruneMessages messages budget = messages) ∧
    (((totalMsgTokens (pruneMessages messages budget) : Nat) : Int) ≤
        budget →
      pruneMessages (pruneMessages messages budget) budget =
        pruneMessages messages budget) :=
  ⟨pruneMessages_in_budget messages budget,
   pruneMessages_in_budget (pruneMessages messages budget) budget⟩

/-- C4 witness: the amended theorem applied to a concrete in-budget
history. -/
theorem pruneMessages_idempotent_in_budget_witness :
    pruneMessages [fourTokenCharMsg] 100 = [fourTokenCharMsg] ∧
    pruneMessages (pruneMessages [fourTokenCharMsg] 100) 100 =
      pruneMessages [fourTokenCharMsg] 100 :=
  ⟨(pruneMessages_idempotent_in_budget [fourTokenCharMsg] 100).1 (by decide),
   (pruneMessages_idempotent_in_budget [fourTokenCharMsg] 100).2 (by decide)⟩

/-- Shape of a pruned history: the last message is retained, the cutoff
stays below the length, a positive cutoff yields a notice followed by
the kept suffix, and a zero cutoff returns the input unchanged. -/
theorem pruneMessages_shape (messages : List Message) (budget : Int)
    (h : messages ≠ []) :
    (pruneMessages messages budget).getLast? = messages.getLast? ∧
    pruneCutoff messages budget ≤ messages.length - 1 ∧
    (0 < pruneCutoff messages budget →
      pruneMessages messages budget =
        pruneNotice (pruneCutoff messages budget) ::
          messages.drop (pruneCutoff messages budget)) ∧
    (pruneCutoff messages budget = 0 →
      pruneMessages messages budget = messages) := by
  have hc := pruneCutoff_le messages budget
  have hlen : 0 < messages.length := List.length_pos.mpr h
  have hdne : messages.drop (pruneCutoff messages budget) ≠ [] := by
    intro hnil
    have hd : (messages.drop (pruneCutoff messages budget)).length =
        messages.length - pruneCutoff messages budget :=
      List.length_drop _ _
    rw [hnil] at hd
    simp at hd
    omega
  have hlast : (messages.drop (pruneCutoff messages budget)).getLast? =
      messages.getLast? := by
    conv_rhs =>
      rw [← List.take_append_drop (pruneCutoff messages budget) messages]
    rw [List.getLast?_append_of_ne_nil _ hdne]
  rw [pruneMessages_eq messages budget h]
  by_cases hcut : 0 < pruneCutoff messages budget
  · rw [if_pos hcut]
    refine ⟨?_, hc, fun _ => rfl, fun h0 => by omega⟩
    rw [List.getLast?_cons, hlast]
    cases hml : messages.getLast? with
    | none =>
      exact absurd (List.getLast?_eq_none_iff.mp hml) h
    | some m =>
      simp
  · rw [if_neg hcut]
    exact ⟨rfl, hc, fun hpos => absurd hpos hcut, fun _ => rfl⟩

/-- C5: for every non-empty history and every budget, the pruned output
ends with the input's most recent message (the cutoff stops before it,
even when it alone exceeds the budget); when at least one message was
dropped (`cutoff > 0`) the output is exactly one synthetic system notice
naming the dropped count followed by the kept suffix, and when nothing
was dropped the input is returned unchanged — so the notice appears
first iff a message was dropped. -/
theorem pruneMessages_spec (messages : List Message) (budget : Int)
    (h : messages ≠ []) :
    (pruneMessages messages budget).getLast? = messages.getLast? ∧
    pruneCutoff messages budget ≤ messages.length - 1 ∧
    (0 < pruneCutoff messages budget →
      pruneMessages messages budget =
        pruneNotice (pruneCutoff messages budget) ::
          messages.drop (pruneCutoff messages budget)) ∧
    (pruneCutoff messages budget = 0 →
      pruneMessages messages budget = messages) :=
  pruneMessages_shape messages budget h

/-- C5 witness: the theorem applied to the concrete over-budget history
(two messages dropped) and, for the retention edge case, a single
message exceeding the budget on its own. -/
theorem pruneMessages_spec_witness :
    (pruneMessages pruneCexMsgs 1).getLast? = pruneCexMsgs.getLast? ∧
    pruneMessages pruneCexMsgs 1 =
      pruneNotice (pruneCutoff pruneCexMsgs 1) ::
        pruneCexMsgs.drop (pruneCutoff pruneCexMsgs 1) ∧
    pruneMessages [fourTokenCharMsg] 0 = [fourTokenCharMsg] := by
  refine ⟨(pruneMessages_spec pruneCexMsgs 1 (by decide)).1,
    (pruneMessages_spec pruneCexMsgs 1 (by decide)).2.2.1 (by decide),
    (pruneMessages_spec [fourTokenCharMsg] 0 (by decide)).2.2.2 (by decide)⟩

/-- A constant LLM returning a one-word summary, for compaction
examples. -/
def summaryLLM : LLM := fun _ _ =>
  Except.ok { content := some ("S"), toolCalls := [],
              finishReason := FinishReason.stop }

/-- A compactor keeping one recent message. -/
def keepOneCompactor : MemoryCompactor :=
  { llm := summaryLLM, keepRecentCount := 1, summaryTokenLimit := 500 }

/-- A three-message history: exactly `keepRecentCount + 2` messages. -/
def compactCexMsgs : List Message :=
  [userMessageRecord ("a"),
   { role := Role.assistant, content := some ("b") },
   userMessageRecord ("c")]

/-- C3 counterexample: with `keepRecentCount = 1`, a history of three
messages is not "fewer than `keepRecentCount + 2`", yet `compact`
refuses (the code refuses at `length ≤ keepRecentCount + 2`, not only
below it). -/
theorem compact_boundary_cex :
    ¬ (compactCexMsgs.length < keepOneCompactor.keepRecentCount + 2) ∧
    MemoryCompactor.compact keepOneCompactor compactCexMsgs =
      Except.ok none := by
  exact ⟨by decide, rfl⟩

/-- The filtered older prefix `compact` summarizes. -/
def compactPrefix (c : MemoryCompactor) (messages : List Message) :
    List Message :=
  (messages.take (messages.length - c.keepRecentCount)).filter
    (fun m => !contentIncludes m.content ("[Context summary:"))

/-- The summary tag is a prefix of every summary message content. -/
theorem summary_tag_is_pre (count : Nat) (s : String) :
    ("[Context summary:" : String).data <+:
      (summaryMessageContent count s).data := by
  unfold summaryMessageContent
  have hA : ("[Context summary: the following is a summary of " :
      String).data = ("[Context summary:" : String).data ++
        (" the following is a summary of " : String).data := by decide
  simp only [String.data_append, hA, List.append_assoc]
  exact ⟨_, rfl⟩

/-- C3 amended: `compact` returns `null` exactly when the history has
at most `keepRecentCount + 2` messages (i.e. fewer than
`keepRecentCount + 3`); on longer histories, whenever the summarization
call returns, compaction succeeds and the result is one synthetic
`system` message tagged `[Context summary:` followed by the
`keepRecentCount` most recent input messages verbatim — a list of
length exactly `1 + keepRecentCount`. -/
theorem compact_spec (c : MemoryCompactor) (messages : List Message) :
    (messages.length ≤ c.keepRecentCount + 2 →
      c.compact messages = Except.ok none) ∧
    (∀ response, c.keepRecentCount + 2 < messages.length →
      c.llm [{ role := Role.user,
               content := some (summaryPrompt c.summaryTokenLimit
                 (compactPrefix c messages)) }] [] = Except.ok response →
      ∃ res, c.compact messages = Except.ok (some res) ∧
        res.messages.length = 1 + c.keepRecentCount ∧
        res.messages = res.summaryMessage ::
          messages.drop (messages.length - c.keepRecentCount) ∧
        res.summaryMessage.role = Role.system ∧
        ("[Context summary:" : String).data <+:
          (res.summaryMessage.content.getD ("")).data ∧
        res.compactedCount = messages.length - c.keepRecentCount) := by
  constructor
  · intro hle
    unfold MemoryCompactor.compact
    rw [if_pos hle]
  · intro response hlt hllm
    have hsumm : c.summarize (compactPrefix c messages) =
        Except.ok (match response.content with
          | some s => if s = "" then "(Failed to generate summary)" else s
          | none => "(Failed to generate summary)") := by
      unfold MemoryCompactor.summarize
      rw [hllm]
    unfold MemoryCompactor.compact
    rw [if_neg (by omega)]
    unfold compactPrefix at hsumm
    simp only [hsumm]
    have htakelen : (messages.take
        (messages.length - c.keepRecentCount)).length =
          messages.length - c.keepRecentCount := by
      rw [List.length_take]
      omega
    refine ⟨_, rfl, ?_, ?_, rfl, ?_, ?_⟩
    · simp only [List.length_cons, List.length_drop]
      omega
    · rfl
    · simp only [Option.getD_some]
      rw [htakelen]
      exact summary_tag_is_pre _ _
    · simp only [htakelen]
  
/-- C3 witness: the amended theorem at a four-message history with
`keepRecentCount = 1` (success case) and at the three-message boundary
(refusal case). -/
theorem compact_spec_witness :
    MemoryCompactor.compact keepOneCompactor compactCexMsgs =
      Except.ok none ∧
    ∃ res, MemoryCompactor.compact keepOneCompactor
        (userMessageRecord ("z") :: compactCexMsgs) =
          Except.ok (some res) ∧
      res.messages.length = 1 + keepOneCompactor.keepRecentCount := by
  constructor
  · exact (compact_spec keepOneCompactor compactCexMsgs).1 (by decide)
  · obtain ⟨res, h1, h2, _⟩ := (compact_spec keepOneCompactor
      (userMessageRecord ("z") :: compactCexMsgs)).2
      { content := some ("S"), toolCalls := [],
        finishReason := FinishReason.stop }
      (by decide) rfl
    exact ⟨res, h1, h2⟩

/-- On the forced-answer iteration the composed messages end with the
hard-stop instruction. -/
theorem composeLLMMessages_zero_last (sp : String) (msgs : List Message) :
    (composeLLMMessages sp msgs 0).getLast? = some hardStopMessage := by
  rw [List.getLast?_eq_some_iff]
  exact ⟨{ role := Role.system, content := some sp } :: msgs,
    by simp [composeLLMMessages]⟩

/-- On the forced-answer iteration the tool list is withheld. -/
theorem composeToolsArg_zero (tools : List ToolDefinition) :
    composeToolsArg tools 0 = [] := rfl

/-- Loop invariant for C1: with `tr.length` iterations already done
and `fuel` remaining, every reported iteration count stays within
`maxIter`, and the trace entry of the forced-answer iteration (the
`maxIter`-th call, made with `remainingSteps = 0`) offers no tools and
ends its composed messages with the hard stop. -/
theorem agentLoop_spec (a : Agent) (maxIter : Nat) :
    ∀ (fuel : Nat) (history : List Message) (tt : Nat)
      (tr : List LLMCall),
      tr.length + fuel = maxIter →
      (∀ i c, i + 1 = maxIter → getElem? tr i = some c →
        c.tools = [] ∧ c.messages.getLast? = some hardStopMessage) →
      ((∀ r, (agentLoop a maxIter fuel history tt tr).result =
          Except.ok r → r.iterations ≤ maxIter) ∧
       (∀ i c, i + 1 = maxIter →
          getElem? (agentLoop a maxIter fuel history tt tr).trace i =
            some c →
          c.tools = [] ∧ c.messages.getLast? = some hardStopMessage)) := by
  intro fuel
  induction fuel with
  | zero =>
    intro history tt tr hlen htrace
    constructor
    · intro r hr
      simp only [agentLoop, Except.ok.injEq] at hr
      subst hr
      simp
    · intro i c hf hc
      exact htrace i c hf hc
  | succ k ih =>
    intro history tt tr hlen htrace
    cases hb : (a.builder).build history with
    | error e =>
      constructor
      · intro r hr
        simp only [agentLoop, hb] at hr
        exact Except.noConfusion hr
      · intro i c hf hc
        simp only [agentLoop, hb] at hc
        exact htrace i c hf hc
    | ok ctx =>
      set entry : LLMCall :=
        { messages := composeLLMMessages ctx.systemPrompt ctx.messages k,
          tools := composeToolsArg ctx.tools k } with hentry
      have htrace' : ∀ i c, i + 1 = maxIter →
          getElem? (tr ++ [entry]) i = some c →
          c.tools = [] ∧ c.messages.getLast? = some hardStopMessage := by
        intro i c hf hc
        rcases Nat.lt_or_ge i tr.length with hlt | hge
        · rw [List.getElem?_append_left hlt] at hc
          exact htrace i c hf hc
        · have hi : i < tr.length + 1 := by
            obtain ⟨hb2, -⟩ := List.getElem?_eq_some_iff.mp hc
            simpa using hb2
          have hieq : i = tr.length := by omega
          have hk0 : k = 0 := by omega
          subst hieq
          rw [List.getElem?_concat_length] at hc
          injection hc with hc
          subst hc
          rw [hentry, hk0]
          exact ⟨rfl, composeLLMMessages_zero_last _ _⟩
      have hlen' : (tr ++ [entry]).length + k = maxIter := by
        simp only [List.length_append, List.length_cons, List.length_nil]
        omega
      cases hl : a.llm (composeLLMMessages ctx.systemPrompt ctx.messages k)
          (composeToolsArg ctx.tools k) with
      | error e =>
        constructor
        · intro r hr
          simp only [agentLoop, hb, hl] at hr
          exact Except.noConfusion hr
        · intro i c hf hc
          simp only [agentLoop, hb, hl] at hc
          exact htrace' i c hf hc
      | ok response =>
        cases hbr : (decide (response.toolCalls.length > 0) && !(k == 0))
        with
        | true =>
          have hihyp := ih
            ((ctx.updatedHistory.getD history) ++
              ({ role := Role.assistant, content := response.content,
                 tool_calls := response.toolCalls,
                 reasoning_content :=
                   truthyOrNone response.reasoningContent } ::
                response.toolCalls.map
                  (toolResultMessage a.parseJson a.registry)))
            (tt + ctx.tokenEstimate) (tr ++ [entry]) hlen' htrace'
          constructor
          · intro r hr
            apply hihyp.1 r
            rw [← hr]
            simp only [agentLoop, hb, hl, hbr, if_true]
          · intro i c hf hc
            apply hihyp.2 i c hf
            rw [← hc]
            simp only [agentLoop, hb, hl, hbr, if_true]
        | false =>
          constructor
          · intro r hr
            simp only [agentLoop, hb, hl, hbr, Bool.false_eq_true,
              if_false, Except.ok.injEq] at hr
            subst hr
            simp only [AgentRunResult.mk.sizeOf_spec]
            show maxIter - k ≤ maxIter
            omega
          · intro i c hf hc
            simp only [agentLoop, hb, hl, hbr, Bool.false_eq_true,
              if_false] at hc
            exact htrace' i c hf hc

/-- C1: a run's reported iteration count never exceeds the configured
`maxIterations` (default `DEFAULT_MAX_ITERATIONS = 10`), and on the
forced-answer iteration — the `maxIter`-th LLM call, made when no
remaining step is left — the LLM is invoked with an empty tool list and
the composed messages end with the appended hard-stop system
instruction. -/
theorem agent_run_iteration_bound (a : Agent) (userMessage : String)
    (history : List Message) :
    (∀ r, (a.run userMessage history).result = Except.ok r →
      r.iterations ≤ a.config.maxIterations.getD DEFAULT_MAX_ITERATIONS) ∧
    (∀ i c, i + 1 = a.config.maxIterations.getD DEFAULT_MAX_ITERATIONS →
      getElem? (a.run userMessage history).trace i = some c →
      c.tools = [] ∧ c.messages.getLast? = some hardStopMessage) :=
  agentLoop_spec a (a.config.maxIterations.getD DEFAULT_MAX_ITERATIONS)
    (a.config.maxIterations.getD DEFAULT_MAX_ITERATIONS)
    (history ++ [userMessageRecord userMessage]) 0 []
    (by simp)
    (by intro i c _ hc; simp at hc)

/-- A constant text-only LLM for witnesses. -/
def witnessLLMPlain : LLM := fun _ _ =>
  Except.ok { content := some ("ok"), toolCalls := [],
              finishReason := FinishReason.stop }

/-- A one-iteration agent over an empty registry. -/
def agentC1 : Agent :=
  { config := { name := "w", baseInstructions := "b", model := "m",
                maxIterations := some 1 },
    llm := witnessLLMPlain, registry := [],
    parseJson := fun _ => Except.error ("unused") }

/-- C1 witness: for a one-iteration agent the single LLM call is the
forced-answer call — no tools, hard stop appended — and the reported
iteration count is bounded. -/
theorem agent_run_iteration_bound_witness :
    (∀ r, (agentC1.run ("hi") []).result = Except.ok r →
      r.iterations ≤ 1) ∧
    ∃ c, getElem? (agentC1.run ("hi") []).trace 0 = some c ∧
      c.tools = [] ∧ c.messages.getLast? = some hardStopMessage := by
  have h := agent_run_iteration_bound agentC1 ("hi") []
  constructor
  · exact h.1
  · have hs : (getElem? (agentC1.run ("hi") []).trace 0).isSome = true := by
      decide
    cases hg : getElem? (agentC1.run ("hi") []).trace 0 with
    | none =>
      rw [hg] at hs
      exact Bool.noConfusion hs
    | some c =>
      exact ⟨c, rfl, h.2 0 c rfl hg⟩

/-! ## Tool-block well-formedness (C7) -/

/-- Whether `m` is the tool-result message of the call `tc`: role
`tool`, carrying the originating call's id and name. -/
def isToolResultFor (tc : ToolCall) (m : Message) : Bool :=
  decide (m.role = Role.tool) && decide (m.tool_call_id = some tc.id) &&
    decide (m.name = some tc.name)

/-- Scan a history with a list of pending tool calls: an assistant
message carrying tool calls must be followed immediately by exactly one
matching `tool` message per call, in call order, before anything else —
in particular before the next `assistant` message. -/
def toolScan : List ToolCall → List Message → Bool
  | [], [] => true
  | _ :: _, [] => false
  | [], m :: rest =>
    if decide (m.role = Role.assistant) && !m.tool_calls.isEmpty then
      toolScan m.tool_calls rest
    else toolScan [] rest
  | tc :: tcs, m :: rest => isToolResultFor tc m && toolScan tcs rest

/-- A history is well formed when the scan with no pending calls
accepts it. -/
def toolBlocksOK (l : List Message) : Bool :=
  toolScan [] l

/-- Pending calls may be forgotten: the consumed tool messages are
harmless to the plain scan. -/
theorem toolScan_forget :
    ∀ (l : List Message) (p : List ToolCall),
      toolScan p l = true → toolScan [] l = true := by
  intro l
  induction l with
  | nil =>
    intro p hp
    cases p with
    | nil => exact hp
    | cons tc tcs => exact absurd hp (by simp [toolScan])
  | cons m rest ih =>
    intro p hp
    cases p with
    | nil => exact hp
    | cons tc tcs =>
      simp only [toolScan, Bool.and_eq_true] at hp
      obtain ⟨hm, hrest⟩ := hp
      have hrole : m.role = Role.tool := by
        simp only [isToolResultFor, Bool.and_eq_true, decide_eq_true_eq]
          at hm
        exact hm.1.1
      simp only [toolBlocksOK, toolScan, hrole]
      have hcond : (decide (Role.tool = Role.assistant) &&
          !m.tool_calls.isEmpty) = false := by
        simp
      rw [hcond]
      simp only [Bool.false_eq_true, if_false]
      exact ih tcs hrest

/-- The scan of a concatenation, given a clean right part. -/
theorem toolScan_append :
    ∀ (xs : List Message) (p : List ToolCall) (ys : List Message),
      toolScan p xs = true → toolScan [] ys = true →
      toolScan p (xs ++ ys) = true := by
  intro xs
  induction xs with
  | nil =>
    intro p ys hp hys
    cases p with
    | nil => simpa using hys
    | cons tc tcs => exact absurd hp (by simp [toolScan])
  | cons m rest ih =>
    intro p ys hp hys
    cases p with
    | nil =>
      simp only [toolScan, List.cons_append] at hp ⊢
      cases hcc : (decide (m.role = Role.assistant) &&
          !m.tool_calls.isEmpty) with
      | true =>
        simp only [hcc, eq_self_iff_true, if_true] at hp ⊢
        exact ih m.tool_calls ys hp hys
      | false =>
        simp only [hcc, Bool.false_eq_true, if_false] at hp ⊢
        exact ih [] ys hp hys
    | cons tc tcs =>
      simp only [toolScan, Bool.and_eq_true] at hp
      rw [List.cons_append, toolScan, Bool.and_eq_true]
      exact ⟨hp.1, ih tcs ys hp.2 hys⟩

/-- Well-formedness passes to the tail. -/
theorem toolBlocksOK_tail (m : Message) (rest : List Message)
    (h : toolBlocksOK (m :: rest) = true) : toolBlocksOK rest = true := by
  simp only [toolBlocksOK, toolScan] at h
  by_cases hcond : (decide (m.role = Role.assistant) &&
      !m.tool_calls.isEmpty) = true
  · rw [if_pos hcond] at h
    exact toolScan_forget rest m.tool_calls h
  · rw [if_neg hcond] at h
    exact h

/-- Well-formedness passes to every suffix. -/
theorem toolBlocksOK_drop (j : Nat) (l : List Message)
    (h : toolBlocksOK l = true) : toolBlocksOK (l.drop j) = true := by
  induction j generalizing l with
  | zero => simpa using h
  | succ j' ih =>
    cases l with
    | nil => simpa using h
    | cons m rest =>
      rw [List.drop_succ_cons]
      exact ih rest (toolBlocksOK_tail m rest h)

/-- The tool messages recorded for a list of calls satisfy the pending
scan. -/
theorem toolScan_block (parseJson : String → Except String Json)
    (reg : ToolRegistry) :
    ∀ (tcs : List ToolCall),
      toolScan tcs (tcs.map (toolResultMessage parseJson reg)) = true := by
  intro tcs
  induction tcs with
  | nil => rfl
  | cons tc rest ih =>
    simp only [List.map_cons, toolScan, Bool.and_eq_true]
    refine ⟨?_, ih⟩
    simp [isToolResultFor, toolResultMessage]

/-- The appended unit of a tool-calling iteration is well formed. -/
theorem toolBlocksOK_unit (parseJson : String → Except String Json)
    (reg : ToolRegistry) (response : LLMResponse)
    (hne : response.toolCalls ≠ []) :
    toolBlocksOK
      ({ role := Role.assistant, content := response.content,
         tool_calls := response.toolCalls,
         reasoning_content := truthyOrNone response.reasoningContent } ::
        response.toolCalls.map (toolResultMessage parseJson reg)) = true := by
  simp only [toolBlocksOK, toolScan]
  rw [if_pos (by simp [hne])]
  exact toolScan_block parseJson reg response.toolCalls

/-- Shape of a successful compaction: one system summary message in
front of a suffix of the input. -/
theorem compact_shape (c : MemoryCompactor) (messages : List Message)
    (res : CompactionResult)
    (h : c.compact messages = Except.ok (some res)) :
    ∃ m j, res.messages = m :: messages.drop j ∧ m.role = Role.system := by
  simp only [MemoryCompactor.compact] at h
  split at h
  · exact absurd h (by simp)
  · split at h
    · exact Except.noConfusion h
    · rw [Except.ok.injEq, Option.some.injEq] at h
      subst h
      exact ⟨_, messages.length - c.keepRecentCount, rfl, rfl⟩

/-- Shape of the compaction step: either untouched, or replaced by a
system summary in front of a suffix. -/
theorem compactStep_shape (compactor : Option MemoryCompactor)
    (messages : List Message) (budget : Int)
    (ms : List Message) (upd : Option (List Message))
    (h : compactStep compactor messages budget = Except.ok (ms, upd)) :
    upd = none ∨
    (∃ m j, upd = some (m :: messages.drop j) ∧ m.role = Role.system) := by
  unfold compactStep at h
  cases compactor with
  | none =>
    replace h : Except.ok (messages, none) =
        (Except.ok (ms, upd) : Except String _) := h
    rw [Except.ok.injEq, Prod.mk.injEq] at h
    exact Or.inl h.2.symm
  | some c =>
    replace h : (if c.shouldCompact messages budget = true then
        (match c.compact messages with
         | Except.error e => Except.error e
         | Except.ok (some result) =>
           Except.ok (result.messages, some result.messages)
         | Except.ok none => Except.ok (messages, none))
      else Except.ok (messages, none)) = Except.ok (ms, upd) := h
    by_cases hsc : c.shouldCompact messages budget = true
    · rw [if_pos hsc] at h
      cases hres : c.compact messages with
      | error e =>
        simp only [hres] at h
        exact Except.noConfusion h
      | ok o =>
        cases o with
        | none =>
          simp only [hres] at h
          rw [Except.ok.injEq, Prod.mk.injEq] at h
          exact Or.inl h.2.symm
        | some res =>
          simp only [hres] at h
          rw [Except.ok.injEq, Prod.mk.injEq] at h
          obtain ⟨m, j, hm, hrole⟩ := compact_shape c messages res hres
          exact Or.inr ⟨m, j, by rw [← h.2, hm], hrole⟩
    · rw [if_neg hsc] at h
      rw [Except.ok.injEq, Prod.mk.injEq] at h
      exact Or.inl h.2.symm

/-- A successful build either leaves the stored history untouched or
replaces it by a system summary in front of a suffix of it. -/
theorem build_ok_shape (cb : ContextBuilder) (history : List Message)
    (ctx : ContextBuildResult) (hb : cb.build history = Except.ok ctx) :
    ctx.updatedHistory = none ∨
    (∃ m j, ctx.updatedHistory = some (m :: history.drop j) ∧
      m.role = Role.system) := by
  simp only [ContextBuilder.build] at hb
  split at hb
  · exact Except.noConfusion hb
  next ms upd hcs =>
    rw [Except.ok.injEq] at hb
    subst hb
    exact compactStep_shape cb.compactor history _ ms upd hcs

/-- A single message that is not an assistant-with-calls message (for
instance any message whose `tool_calls` is empty) forms a well-formed
history. -/
theorem toolBlocksOK_single_plain (m : Message) (hm : m.tool_calls = []) :
    toolBlocksOK [m] = true := by
  simp [toolBlocksOK, toolScan, hm]

/-- Loop invariant for C7: the ReAct loop preserves tool-block
well-formedness of the stored conversation history. -/
theorem agentLoop_toolBlocks (a : Agent) (maxIter : Nat) :
    ∀ (fuel : Nat) (history : List Message) (tt : Nat)
      (tr : List LLMCall),
      toolBlocksOK history = true →
      toolBlocksOK (agentLoop a maxIter fuel history tt tr).history =
        true := by
  intro fuel
  induction fuel with
  | zero =>
    intro history tt tr hh
    simp only [agentLoop]
    exact toolScan_append history [] _ hh
      (toolBlocksOK_single_plain _ rfl)
  | succ k ih =>
    intro history tt tr hh
    cases hb : (a.builder).build history with
    | error e =>
      simp only [agentLoop, hb]
      exact hh
    | ok ctx =>
      have hh' : toolBlocksOK (ctx.updatedHistory.getD history) = true := by
        rcases build_ok_shape (a.builder) history ctx hb with hnone |
            ⟨m, j, hupd, hrole⟩
        · rw [hnone]
          exact hh
        · rw [hupd]
          show toolScan [] (m :: history.drop j) = true
          simp only [toolScan]
          have hcond : (decide (m.role = Role.assistant) &&
              !m.tool_calls.isEmpty) = false := by
            simp [hrole]
          rw [hcond]
          simp only [Bool.false_eq_true, if_false]
          exact toolBlocksOK_drop j history hh
      cases hl : a.llm (composeLLMMessages ctx.systemPrompt ctx.messages k)
          (composeToolsArg ctx.tools k) with
      | error e =>
        simp only [agentLoop, hb, hl]
        exact hh'
      | ok response =>
        cases hbr : (decide (response.toolCalls.length > 0) && !(k == 0))
        with
        | true =>
          simp only [agentLoop, hb, hl, hbr, eq_self_iff_true, if_true]
          apply ih
          apply toolScan_append _ [] _ hh'
          have hne : response.toolCalls ≠ [] := by
            intro hemp
            rw [Bool.and_eq_true, decide_eq_true_eq] at hbr
            rw [hemp] at hbr
            simp at hbr
          exact toolBlocksOK_unit a.parseJson a.registry response hne
        | false =>
          simp only [agentLoop, hb, hl, hbr, Bool.false_eq_true, if_false]
          exact toolScan_append _ [] _ hh'
            (toolBlocksOK_single_plain _ rfl)

/-- C7: every conversation history produced by `Agent.run` from a
well-formed starting history is well formed: each assistant message
carrying tool calls is followed immediately by exactly one `tool`
message per call, in call order, each carrying the originating call's
id (and name), all of them before the next assistant message
(`toolScan` consumes exactly the pending calls before accepting any
other message). The empty history of a fresh agent is well formed. -/
theorem agent_run_toolBlocks (a : Agent) (userMessage : String)
    (history : List Message) (h : toolBlocksOK history = true) :
    toolBlocksOK (a.run userMessage history).history = true := by
  have huser : toolBlocksOK (history ++ [userMessageRecord userMessage]) =
      true :=
    toolScan_append history [] _ h (toolBlocksOK_single_plain _ rfl)
  exact agentLoop_toolBlocks a _ _ _ 0 [] huser

/-- A looping LLM that always asks for the same tool call. -/
def loopingLLM : LLM := fun _ _ =>
  Except.ok { content := some ("thinking..."),
              toolCalls := [{ id := "loop", name := "calculator",
                              arguments := "x" }],
              finishReason := FinishReason.tool_calls }

/-- The calculator tool of the repository's agent tests, with its
handler modelled as a constant (the test handler evaluates the
expression through the external `Function` constructor). -/
def calculatorTool : Tool :=
  { definition :=
      { name := "calculator", description := "Perform arithmetic",
        parameters :=
          { properties :=
              [(("expression" : String), ToolParameter.mk ("string")
                (some ("Math expression")) none none none none)],
            required := some [("expression" : String)] } },
    handler := fun _args => Except.ok ("2") }

/-- The three-iteration agent of the runaway-loop scenario. -/
def agentRunaway : Agent :=
  { config := { name := "test-agent",
                baseInstructions := "You are a helpful test agent.",
                model := "mock", maxIterations := some 3 },
    llm := loopingLLM, registry := [calculatorTool],
    parseJson := fun _ =>
      Except.ok (Json.obj [(("expression" : String), Json.str ("1+1"))]) }

/-- C7 witness: the theorem applied to a run that records tool calls
and tool results (the runaway agent), starting from the empty
history. -/
theorem agent_run_toolBlocks_witness :
    toolBlocksOK (agentRunaway.run ("Loop forever") []).history = true :=
  agent_run_toolBlocks agentRunaway ("Loop forever") [] (by decide)

/-- C6: evaluation of the runaway scenario (the repository's own
`stops at maxIterations` test: an LLM that requests a tool call on
every invocation, `maxIterations = 3`). The run does report
`iterations = 3`, but the returned response is the stripped content of
the forced third call (`"thinking..."`), not a text signalling the
reasoning-step ceiling: the forced-answer iteration always returns
directly, so the backward search for the last assistant content and the
generic `"maximum number of reasoning steps"` fallback are unreachable
for positive `maxIterations`. -/
theorem agent_runaway_ceiling_eval :
    (agentRunaway.run ("Loop forever") []).result.map
        AgentRunResult.iterations = Except.ok 3 ∧
    (agentRunaway.run ("Loop forever") []).result.map
        AgentRunResult.response = Except.ok ("thinking...") ∧
    containsSeq ("maximum number of reasoning steps" : String).data
      ("thinking..." : String).data = false := by
  refine ⟨by rfl, by rfl, by decide⟩

/-- Without a compactor, a build never throws, never rewrites the
stored history, and its message list still ends with (hence contains)
the most recent history message. -/
theorem build_no_compactor_ok (cb : ContextBuilder)
    (hc : cb.compactor = none) (history : List Message) :
    ∃ ctx, cb.build history = Except.ok ctx ∧
      ctx.updatedHistory = none ∧
      (∀ u, history.getLast? = some u → u ∈ ctx.messages) := by
  simp only [ContextBuilder.build, hc, compactStep]
  refine ⟨_, rfl, rfl, ?_⟩
  intro u hu
  have hne : history ≠ [] := by
    intro hnil
    rw [hnil] at hu
    simp at hu
  split
  · have hlast := (pruneMessages_shape history cb.budget hne).1
    rw [hu] at hlast
    exact List.mem_of_getLast?_eq_some hlast
  · exact List.mem_of_getLast?_eq_some hu

/-- Indexing agrees along a list prefix. -/
theorem prefix_getElem? {α : Type} {l₁ l₂ : List α} (h : l₁ <+: l₂)
    {i : Nat} (hi : i < l₁.length) : getElem? l₂ i = getElem? l₁ i := by
  obtain ⟨t, rfl⟩ := h
  rw [List.getElem?_append_left hi]

/-- Loop invariant for C10 (no compactor configured): the stored
history only grows, the trace only grows, and a thrown error is always
one returned by an LLM invocation recorded in the trace. -/
theorem agentLoop_no_compactor (a : Agent) (hc : a.compactor = none)
    (maxIter : Nat) :
    ∀ (fuel : Nat) (history : List Message) (tt : Nat)
      (tr : List LLMCall),
      (history <+: (agentLoop a maxIter fuel history tt tr).history) ∧
      (tr <+: (agentLoop a maxIter fuel history tt tr).trace) ∧
      (∀ e, (agentLoop a maxIter fuel history tt tr).result =
          Except.error e →
        ∃ c ∈ (agentLoop a maxIter fuel history tt tr).trace,
          a.llm c.messages c.tools = Except.error e) := by
  have hcb : (a.builder).compactor = none := hc
  intro fuel
  induction fuel with
  | zero =>
    intro history tt tr
    simp only [agentLoop]
    refine ⟨⟨_, rfl⟩, List.prefix_refl tr, ?_⟩
    intro e he
    exact Except.noConfusion he
  | succ k ih =>
    intro history tt tr
    obtain ⟨ctx, hb, hupd, -⟩ := build_no_compactor_ok (a.builder) hcb
      history
    cases hl : a.llm (composeLLMMessages ctx.systemPrompt ctx.messages k)
        (composeToolsArg ctx.tools k) with
    | error e =>
      simp only [agentLoop, hb, hl, hupd, Option.getD_none]
      refine ⟨List.prefix_refl history, ⟨_, rfl⟩, ?_⟩
      intro e' he'
      rw [Except.error.injEq] at he'
      subst he'
      exact ⟨{ messages := composeLLMMessages ctx.systemPrompt ctx.messages k, tools := composeToolsArg ctx.tools k }, by simp, hl⟩
    | ok response =>
      cases hbr : (decide (response.toolCalls.length > 0) && !(k == 0))
      with
      | true =>
        have hih := ih
          (history ++ ({ role := Role.assistant, content := response.content, tool_calls := response.toolCalls, reasoning_content := truthyOrNone response.reasoningContent } :: response.toolCalls.map (toolResultMessage a.parseJson a.registry)))
          (tt + ctx.tokenEstimate)
          (tr ++ [{ messages := composeLLMMessages ctx.systemPrompt ctx.messages k, tools := composeToolsArg ctx.tools k }])
        have hred : agentLoop a maxIter (k + 1) history tt tr =
            agentLoop a maxIter k
              (history ++ ({ role := Role.assistant, content := response.content, tool_calls := response.toolCalls, reasoning_content := truthyOrNone response.reasoningContent } :: response.toolCalls.map (toolResultMessage a.parseJson a.registry)))
              (tt + ctx.tokenEstimate)
              (tr ++ [{ messages := composeLLMMessages ctx.systemPrompt ctx.messages k, tools := composeToolsArg ctx.tools k }]) := by
          simp only [agentLoop, hb, hl, hbr, hupd, Option.getD_none,
            eq_self_iff_true, if_true]
        rw [hred]
        refine ⟨?_, ?_, hih.2.2⟩
        · exact List.IsPrefix.trans (List.prefix_append _ _) hih.1
        · exact List.IsPrefix.trans (List.prefix_append _ _) hih.2.1
      | false =>
        simp only [agentLoop, hb, hl, hbr, hupd, Option.getD_none,
          Bool.false_eq_true, if_false]
        refine ⟨List.prefix_append _ _, ⟨_, rfl⟩, ?_⟩
        intro e he
        exact Except.noConfusion he

/-- C10 amended: when no compactor is configured, `run` appends the
user message before the first LLM call (the first recorded invocation's
message list contains it), and when the provider throws, the error
propagates out of `run` (it is the error of a traced LLM invocation)
while the final stored history still starts with the entry history
followed by the appended user message — every message appended in
earlier iterations is retained, `run` is not atomic. With an LLM-based
compactor the retention clause can fail (see the counterexample). -/
theorem agent_run_provider_error (a : Agent) (hc : a.compactor = none)
    (userMessage : String) (history : List Message) :
    ((history ++ [userMessageRecord userMessage]) <+:
      (a.run userMessage history).history) ∧
    (∀ c, getElem? (a.run userMessage history).trace 0 = some c →
      userMessageRecord userMessage ∈ c.messages) ∧
    (∀ e, (a.run userMessage history).result = Except.error e →
      ∃ c ∈ (a.run userMessage history).trace,
        a.llm c.messages c.tools = Except.error e) := by
  have hcb : (a.builder).compactor = none := hc
  have hmain := agentLoop_no_compactor a hc
    (a.config.maxIterations.getD DEFAULT_MAX_ITERATIONS)
    (a.config.maxIterations.getD DEFAULT_MAX_ITERATIONS)
    (history ++ [userMessageRecord userMessage]) 0 []
  refine ⟨hmain.1, ?_, hmain.2.2⟩
  intro c hcall
  cases hfuel : a.config.maxIterations.getD DEFAULT_MAX_ITERATIONS with
  | zero =>
    have htr : (a.run userMessage history).trace = [] := by
      show (agentLoop a _ (a.config.maxIterations.getD
        DEFAULT_MAX_ITERATIONS) (history ++ [userMessageRecord
        userMessage]) 0 []).trace = []
      rw [hfuel]
      simp only [agentLoop]
    rw [htr] at hcall
    simp at hcall
  | succ k =>
    obtain ⟨ctx, hb, hupd, hmem⟩ := build_no_compactor_ok (a.builder) hcb
      (history ++ [userMessageRecord userMessage])
    have humem : userMessageRecord userMessage ∈ ctx.messages :=
      hmem (userMessageRecord userMessage) (List.getLast?_concat history)
    have hrun : (a.run userMessage history).trace =
        (agentLoop a (k + 1) (k + 1)
          (history ++ [userMessageRecord userMessage]) 0 []).trace := by
      show (agentLoop a (a.config.maxIterations.getD
        DEFAULT_MAX_ITERATIONS) (a.config.maxIterations.getD
        DEFAULT_MAX_ITERATIONS) (history ++ [userMessageRecord
        userMessage]) 0 []).trace = _
      rw [hfuel]
    have hpre : [({ messages := composeLLMMessages ctx.systemPrompt ctx.messages k, tools := composeToolsArg ctx.tools k } : LLMCall)] <+:
        (agentLoop a (k + 1) (k + 1)
          (history ++ [userMessageRecord userMessage]) 0 []).trace := by
      cases hl : a.llm (composeLLMMessages ctx.systemPrompt ctx.messages
          k) (composeToolsArg ctx.tools k) with
      | error e =>
        simp only [agentLoop, hb, hl]
        exact List.prefix_refl _
      | ok response =>
        cases hbr : (decide (response.toolCalls.length > 0) && !(k == 0))
        with
        | true =>
          have hmono := (agentLoop_no_compactor a hc (k + 1) k
            ((ctx.updatedHistory.getD (history ++ [userMessageRecord userMessage])) ++ ({ role := Role.assistant, content := response.content, tool_calls := response.toolCalls, reasoning_content := truthyOrNone response.reasoningContent } :: response.toolCalls.map (toolResultMessage a.parseJson a.registry)))
            (0 + ctx.tokenEstimate)
            ([] ++ [{ messages := composeLLMMessages ctx.systemPrompt ctx.messages k, tools := composeToolsArg ctx.tools k }])).2.1
          have hred : agentLoop a (k + 1) (k + 1)
              (history ++ [userMessageRecord userMessage]) 0 [] =
              agentLoop a (k + 1) k
                ((ctx.updatedHistory.getD (history ++ [userMessageRecord userMessage])) ++ ({ role := Role.assistant, content := response.content, tool_calls := response.toolCalls, reasoning_content := truthyOrNone response.reasoningContent } :: response.toolCalls.map (toolResultMessage a.parseJson a.registry)))
                (0 + ctx.tokenEstimate)
                ([] ++ [{ messages := composeLLMMessages ctx.systemPrompt ctx.messages k, tools := composeToolsArg ctx.tools k }]) := by
            simp only [agentLoop, hb, hl, hbr, eq_self_iff_true, if_true]
          rw [hred]
          simpa using hmono
        | false =>
          simp only [agentLoop, hb, hl, hbr, Bool.false_eq_true, if_false]
          exact List.prefix_refl _
    rw [hrun] at hcall
    rw [prefix_getElem? hpre (by simp)] at hcall
    simp only [List.getElem?_cons_zero, Option.some.injEq] at hcall
    subst hcall
    simp only [composeLLMMessages]
    simp [humem]

/-- An agent without compactor whose provider always throws. -/
def agentC10W : Agent :=
  { config := { name := "w", baseInstructions := "b", model := "m",
                maxIterations := some 1 },
    llm := fun _ _ => Except.error ("boom"), registry := [],
    parseJson := fun _ => Except.error ("unused") }

/-- C10 witness: the amended theorem at a concrete throwing provider —
the user message is in the first LLM call, the error propagates, and
the history retains the user message. -/
theorem agent_run_provider_error_witness :
    (([] ++ [userMessageRecord ("hi")]) <+:
      (agentC10W.run ("hi") []).history) ∧
    (∃ c, getElem? (agentC10W.run ("hi") []).trace 0 = some c ∧
      userMessageRecord ("hi") ∈ c.messages) ∧
    (∃ e, (agentC10W.run ("hi") []).result = Except.error e) := by
  have h := agent_run_provider_error agentC10W rfl ("hi") []
  refine ⟨h.1, ?_, ?_⟩
  · have hs : (getElem? (agentC10W.run ("hi") []).trace 0).isSome =
        true := by decide
    cases hg : getElem? (agentC10W.run ("hi") []).trace 0 with
    | none =>
      rw [hg] at hs
      exact Bool.noConfusion hs
    | some c => exact ⟨c, rfl, h.2.1 c hg⟩
  · exact ⟨("boom"), by rfl⟩

/-- The character data of a packed string. -/
theorem string_data_mk (l : List Char) : (String.mk l).data = l := rfl

/-- A 52000-character CJK message content (≈26000 estimated tokens,
enough to cross 80% of the default 32000-token budget). -/
def bigContent : String :=
  String.mk (List.replicate 52000 ('好'))

/-- Unfolding of `estimateTokens`, stated at a variable so that every
instance is checked without evaluating the string. -/
theorem estimateTokens_def (s : String) :
    estimateTokens s = (2 * cjkCount s + otherCount s + 3) / 4 := rfl

/-- CJK count of the big content, computed symbolically. -/
theorem cjkCount_bigContent : cjkCount bigContent = 52000 := by
  unfold cjkCount bigContent
  rw [string_data_mk]
  rw [List.countP_replicate]
  rw [show isCjkChar ('好') = true from by decide]
  rfl

/-- Non-CJK count of the big content. -/
theorem otherCount_bigContent : otherCount bigContent = 0 := by
  unfold otherCount bigContent
  rw [string_data_mk]
  rw [List.countP_replicate]
  rw [show (!isCjkChar ('好')) = false from by decide]
  rfl

/-- Token estimate of the big content, computed symbolically. -/
theorem estimateTokens_bigContent : estimateTokens bigContent = 26000 := by
  rw [estimateTokens_def, cjkCount_bigContent, otherCount_bigContent]

/-- The constant response of the counterexample summarization LLM. -/
def keepZeroResponse : LLMResponse :=
  { content := some ("S"), toolCalls := [],
    finishReason := FinishReason.stop }

/-- The keep-nothing compactor of the counterexample, with its own
working summarization LLM. -/
def keepZeroCompactor : MemoryCompactor :=
  { llm := fun _ _ => Except.ok keepZeroResponse,
    keepRecentCount := 0, summaryTokenLimit := 500 }

/-- The agent of the counterexample: compactor configured, provider
throwing. -/
def agentC10 : Agent :=
  { config := { name := "a", baseInstructions := "b", model := "m",
                maxIterations := some 1 },
    llm := fun _ _ => Except.error ("boom"), registry := [],
    compactor := some keepZeroCompactor,
    parseJson := fun _ => Except.error ("unused") }

/-- The entry history of the counterexample run. -/
def histC10 : List Message :=
  [{ role := Role.user, content := some bigContent },
   { role := Role.assistant, content := some ("x") }]

/-- The history right after `run` appends the user message. -/
def histFullC10 : List Message :=
  histC10 ++ [userMessageRecord ("hi")]

/-- The summary message the counterexample compaction produces. -/
def cexSummary : Message :=
  { role := Role.system, content := some (summaryMessageContent 3 ("S")) }

/-- Unfolding of `msgTokens`, at a variable. -/
theorem msgTokens_def (m : Message) :
    msgTokens m = estimateTokens (m.content.getD ("")) := rfl

/-- Total estimate of the counterexample history. -/
theorem totalMsgTokens_histFullC10 :
    totalMsgTokens histFullC10 = 26002 := by
  have h1 : msgTokens { role := Role.user, content := some bigContent } =
      26000 := by
    rw [msgTokens_def]
    exact estimateTokens_bigContent
  have h2 : msgTokens { role := Role.assistant, content := some ("x") } =
      1 := by decide
  have h3 : msgTokens (userMessageRecord ("hi")) = 1 := by decide
  have ha : totalMsgTokens histFullC10 = List.foldl
      (fun sum m => sum + msgTokens m) 0
      [{ role := Role.user, content := some bigContent },
       { role := Role.assistant, content := some ("x") },
       userMessageRecord ("hi")] := rfl
  rw [ha]
  rw [List.foldl_cons, List.foldl_cons, List.foldl_cons, List.foldl_nil]
  show 0 + msgTokens { role := Role.user, content := some bigContent }
    + msgTokens { role := Role.assistant, content := some ("x") }
    + msgTokens (userMessageRecord ("hi")) = 26002
  rw [h1, h2, h3]

/-- The compaction trigger fires on the counterexample history: the
estimated 26002 tokens exceed 80% of the remaining budget. -/
theorem shouldCompact_histFullC10 :
    MemoryCompactor.shouldCompact keepZeroCompactor histFullC10
      ((Agent.builder agentC10).budget) = true := by
  unfold MemoryCompactor.shouldCompact
  rw [totalMsgTokens_histFullC10]
  decide

/-- The compaction result of the counterexample. -/
def cexCompaction : CompactionResult :=
  { messages := [cexSummary], summaryMessage := cexSummary,
    compactedCount := 3 }

/-- Compacting the counterexample history summarizes everything away
(`keepRecentCount = 0`), leaving only the tagged summary message. -/
theorem compact_histFullC10 :
    MemoryCompactor.compact keepZeroCompactor histFullC10 =
      Except.ok (some cexCompaction) := rfl

/-- The compaction step of the counterexample build replaces the whole
working history by the summary and records it as the updated history. -/
theorem compactStep_histFullC10 :
    compactStep ((Agent.builder agentC10).compactor) histFullC10
      ((Agent.builder agentC10).budget) =
      Except.ok ([cexSummary], some [cexSummary]) := by
  rw [show (Agent.builder agentC10).compactor = some keepZeroCompactor
    from rfl]
  simp only [compactStep, shouldCompact_histFullC10, if_true]
  rw [compact_histFullC10]
  rfl

/-- The continuation of `ContextBuilder.build` past the compaction
step, factored out so the step’s result can be rewritten in place. -/
def buildFinish (cb : ContextBuilder)
    (r : Except String (List Message × Option (List Message))) :
    Except String ContextBuildResult :=
  match r with
  | Except.error e => Except.error e
  | Except.ok (messages, updatedHistory) =>
    let prunedMessages := pruneMessages messages cb.budget
    let messages := if prunedMessages.length ≠ messages.length then
      prunedMessages else messages
    Except.ok
      { systemPrompt := cb.systemPromptOf, messages := messages,
        tools := cb.registry.filteredDefinitions cb.config.toolAllowlist,
        tokenEstimate := estimateTokens cb.systemPromptOf +
          totalMsgTokens messages,
        updatedHistory := updatedHistory }

/-- A build is the compaction step followed by the factored
continuation. -/
theorem build_eq_finish (cb : ContextBuilder) (history : List Message) :
    cb.build history =
      buildFinish cb (compactStep cb.compactor history cb.budget) := rfl

/-- The context produced by the counterexample build. -/
def ctxC10 : ContextBuildResult :=
  { systemPrompt := (Agent.builder agentC10).systemPromptOf,
    messages := [cexSummary], tools := [],
    tokenEstimate :=
      estimateTokens ((Agent.builder agentC10).systemPromptOf) +
        totalMsgTokens [cexSummary],
    updatedHistory := some [cexSummary] }

/-- The counterexample build adopts the compacted history and records
it as `updatedHistory`. -/
theorem build_histFullC10 :
    (Agent.builder agentC10).build histFullC10 = Except.ok ctxC10 := by
  rw [build_eq_finish, compactStep_histFullC10]
  rfl

/-- C10 counterexample: with an LLM-based compactor configured
(`keepRecentCount = 0`) and a 52000-character history entry, a provider
error still propagates out of `run`, but the final history no longer
contains the user message `run` itself appended before the first LLM
call — compaction replaced the whole working history by the summary
message before the provider threw, so the retention clause of the
claim fails. -/
theorem agent_run_not_atomic_cex :
    (Agent.run agentC10 ("hi") histC10).result = Except.error ("boom") ∧
    userMessageRecord ("hi") ∉ (Agent.run agentC10 ("hi") histC10).history
    := by
  have hrun : Agent.run agentC10 ("hi") histC10 =
      agentLoop agentC10 1 (Nat.succ 0) histFullC10 0 [] := rfl
  have hres : (agentLoop agentC10 1 (Nat.succ 0) histFullC10 0
      []).result = Except.error ("boom") := by
    rw [agentLoop.eq_2, build_histFullC10]
    rfl
  have hhist : (agentLoop agentC10 1 (Nat.succ 0) histFullC10 0
      []).history = [cexSummary] := by
    rw [agentLoop.eq_2, build_histFullC10]
    rfl
  rw [hrun, hres, hhist]
  refine ⟨rfl, ?_⟩
  intro hmem
  have heq : userMessageRecord ("hi") = cexSummary :=
    List.mem_singleton.mp hmem
  have hrole := congrArg Message.role heq
  exact absurd hrole (by decide)
